import Mathlib

/-!
Verification of the series-detection and fuzzy-grouping engine of the
`set-list` repository (`backend/api/tracks.py`, endpoints `detect_series` and
`get_tagged_series`).

Text is modelled as `List Char`.  The Python regular expressions of the source
are each translated into a hand-written matcher with the same leftmost,
greedy-with-backtracking semantics; `re.sub` becomes `subAll`, which scans left
to right and restarts after each removed match, exactly like the Python
original.  Python `\w` and `\s` are modelled over ASCII (the inputs of this
code are filenames and tags; `$` is modelled as end-of-string, which agrees
with Python for strings without a trailing newline).  Nullable string columns
of the `Track` model are modelled as the empty string, which is equivalent for
this code: the source only ever uses them through truthiness (`or`, `if x`,
filters).  Python `dict`s (insertion ordered) become association lists,
Python `set`s (used only for membership, size, intersection, union and subset
tests, never for iteration order) become `Finset` or membership lists, and
Python's stable `sort` becomes a stable insertion sort.
-/

namespace SetList

abbrev Str := List Char

/-- ASCII model of Python regex `\s`. -/
def isWs (c : Char) : Bool :=
  c = ' ' || c = '\t' || c = '\n' || c = '\r' || c = '\x0b' || c = '\x0c'

def isDigitC (c : Char) : Bool := '0' ≤ c && c ≤ '9'

def isAsciiAlpha (c : Char) : Bool :=
  ('a' ≤ c && c ≤ 'z') || ('A' ≤ c && c ≤ 'Z')

/-- ASCII model of Python regex `\w`. -/
def isWordC (c : Char) : Bool := isAsciiAlpha c || isDigitC c || c = '_'

/-- Separator class `[\s\-_]` used by the episode and cleanup patterns. -/
def isSepC (c : Char) : Bool := isWs c || c = '-' || c = '_'

/-- ASCII lower-casing, as `str.lower` acts on the ASCII inputs of this code. -/
def lowerC (c : Char) : Char :=
  if 'A' ≤ c ∧ c ≤ 'Z' then Char.ofNat (c.toNat + 32) else c

def lcStr (s : Str) : Str := s.map lowerC

/-- Python `str.strip()` (strip leading and trailing whitespace). -/
def stripStr (s : Str) : Str :=
  ((s.dropWhile isWs).reverse.dropWhile isWs).reverse

/-- Collapse every whitespace run to a single space: `re.sub(r'\s+', ' ', s)`. -/
def collapseWsAux : Bool → Str → Str
  | _, [] => []
  | inWs, c :: rest =>
    if isWs c then
      if inWs then collapseWsAux true rest else ' ' :: collapseWsAux true rest
    else c :: collapseWsAux false rest

def collapseWs (s : Str) : Str := collapseWsAux false s

/-- The audio extensions of `clean_filename`, with the leading dot. -/
def audioExts : List Str :=
  [".mp3".data, ".flac".data, ".wav".data, ".m4a".data, ".aac".data, ".ogg".data]

/-- `re.sub(r'\.(mp3|flac|wav|m4a|aac|ogg)$', '', name, flags=IGNORECASE)`. -/
def stripAudioExt (s : Str) : Str :=
  match audioExts.find? (fun e => e.isSuffixOf (lcStr s)) with
  | some e => s.take (s.length - e.length)
  | none => s

/-- `re.sub(r'_', ' ', name)`. -/
def underscoresToSpaces (s : Str) : Str :=
  s.map (fun c => if c = '_' then ' ' else c)

/-- `re.sub(r'(?<=[a-zA-Z])-(?=[a-zA-Z])', ' ', name)`: a hyphen is replaced
by a space when its neighbours in the original string are ASCII letters. -/
def hyphenFixAux : Option Char → Str → Str
  | _, [] => []
  | prev, c :: rest =>
    let left := match prev with | some p => isAsciiAlpha p | none => false
    let right := match rest with | n :: _ => isAsciiAlpha n | [] => false
    if c = '-' && left && right then ' ' :: hyphenFixAux (some c) rest
    else c :: hyphenFixAux (some c) rest

def hyphenFix (s : Str) : Str := hyphenFixAux none s

/-- `clean_filename` of the source: strip the extension, underscores to
spaces, letter-hyphen-letter to space, collapse whitespace, strip. -/
def clean_filename (s : Str) : Str :=
  stripStr (collapseWs (hyphenFix (underscoresToSpaces (stripAudioExt s))))

/-! ### Matcher combinators

A matcher `Str → Option Nat` returns the length of the (unique, per the
greedy/backtracking analysis of each pattern) regex match anchored at the head
of its argument, or `none`.  `subAll` then reproduces `re.sub`: scan left to
right, replace each match, continue after it. -/

def subAllAux (m : Str → Option Nat) (rep : Str) : Nat → Str → Str
  | _, [] => []
  | 0, s => s
  | fuel + 1, c :: rest =>
    match m (c :: rest) with
    | some n =>
      if 1 ≤ n then rep ++ subAllAux m rep fuel ((c :: rest).drop n)
      else c :: subAllAux m rep fuel rest
    | none => c :: subAllAux m rep fuel rest

/-- Each scan step consumes at least one character, so `s.length` steps of
fuel always suffice; the fuel only makes the recursion structural. -/
def subAll (m : Str → Option Nat) (rep : Str) (s : Str) : Str :=
  subAllAux m rep s.length s

/-- Consume `\s*`. -/
def chompWs (s : Str) : Str := s.dropWhile isWs

/-- Consume `\s+`. -/
def chompWs1 (s : Str) : Option Str :=
  match s with
  | c :: _ => if isWs c then some (s.dropWhile isWs) else none
  | [] => none

/-- Consume one literal character. -/
def chompChar (c : Char) : Str → Option Str
  | x :: rest => if x = c then some rest else none
  | [] => none

/-- Consume exactly `n` digits (`\d{n}`). -/
def chompDigits : Nat → Str → Option Str
  | 0, s => some s
  | n + 1, c :: rest => if isDigitC c then chompDigits n rest else none
  | _ + 1, [] => none

/-- Consume `\d+` (greedy, at least one digit). -/
def chompDigits1 (s : Str) : Option Str :=
  match s with
  | c :: _ => if isDigitC c then some (s.dropWhile isDigitC) else none
  | [] => none

/-- Consume `\w+` (greedy, at least one word character). -/
def chompWord1 (s : Str) : Option Str :=
  match s with
  | c :: _ => if isWordC c then some (s.dropWhile isWordC) else none
  | [] => none

/-- Consume a literal string case-insensitively (the literal is given in
lower case). -/
def chompStrCI : Str → Str → Option Str
  | [], s => some s
  | l :: ls, c :: cs => if lowerC c = l then chompStrCI ls cs else none
  | _ :: _, [] => none

/-- Consume one of `-` or `.` (the `[\-\.]` class). -/
def chompDateSep : Str → Option Str
  | c :: rest => if c = '-' ∨ c = '.' then some rest else none
  | [] => none

/-- Consume an optional single character (`c?`). -/
def optChar (c : Char) (s : Str) : Str :=
  match s with
  | x :: rest => if x = c then rest else s
  | [] => s

/-- Turn a consumer into a matcher by measuring the consumed length. -/
def toMatch (f : Str → Option Str) (s : Str) : Option Nat :=
  match f s with
  | some rest => some (s.length - rest.length)
  | none => none

/-! ### The date patterns of `extract_series_name` -/

def monthAbbrevs : List Str :=
  ["jan".data, "feb".data, "mar".data, "apr".data, "may".data, "jun".data,
   "jul".data, "aug".data, "sep".data, "oct".data, "nov".data, "dec".data]

/-- Four consecutive digits occur somewhere in `s` (`[^)]*\d{4}[^)]*` over a
string already known to contain no `)`). -/
def hasFourDigits : Str → Bool
  | a :: b :: c :: d :: rest =>
    (isDigitC a && isDigitC b && isDigitC c && isDigitC d)
      || hasFourDigits (b :: c :: d :: rest)
  | _ => false

/-- Some month abbreviation occurs (case-insensitively) and four consecutive
digits occur at or after the end of that abbreviation. -/
def monthThenYear : Str → Bool
  | [] => false
  | c :: rest =>
    (monthAbbrevs.any (fun m => (chompStrCI m (c :: rest)).isSome)
        && hasFourDigits ((c :: rest).drop 3))
      || monthThenYear rest

/-- `\s*\([^)]*(?:jan|feb|mar|apr|may|jun|jul|aug|sep|oct|nov|dec)[^)]*\d{4}[^)]*\)`
(case-insensitive).  Since `[^)]*` cannot cross a `)`, the closing paren of
any match is the first `)` after the `(`; the bracketed content must contain a
month abbreviation followed (at distance ≥ 3) by four digits. -/
def matchMonthParen (s : Str) : Option Nat :=
  let wsn := (s.takeWhile isWs).length
  match s.drop wsn with
  | '(' :: rest =>
    let content := rest.takeWhile (fun c => c != ')')
    match rest.drop content.length with
    | ')' :: _ =>
      if monthThenYear content then some (wsn + 1 + content.length + 1) else none
    | _ => none
  | _ => none

/-- `\s*\(\d{4}\)`. -/
def consParenYear (s : Str) : Option Str :=
  (chompChar '(' (chompWs s)).bind (chompDigits 4) |>.bind (chompChar ')')

/-- `\s*\(\d{4}-\d{2}-\d{2}\s+\d{2}\.\d{2}\.\d{2}\s+\w+\)`. -/
def consFullTimestamp (s : Str) : Option Str :=
  (chompChar '(' (chompWs s)).bind (chompDigits 4) |>.bind (chompChar '-')
    |>.bind (chompDigits 2) |>.bind (chompChar '-') |>.bind (chompDigits 2)
    |>.bind chompWs1 |>.bind (chompDigits 2) |>.bind (chompChar '.')
    |>.bind (chompDigits 2) |>.bind (chompChar '.') |>.bind (chompDigits 2)
    |>.bind chompWs1 |>.bind chompWord1 |>.bind (chompChar ')')

/-- `\d{1,2}[:.]\d{2}` (greedy on the hour digits). -/
def chompHourMin : Str → Option Str
  | a :: b :: c :: rest =>
    if isDigitC a && isDigitC b && (c = ':' || c = '.') then chompDigits 2 rest
    else if isDigitC a && (b = ':' || b = '.') then chompDigits 2 (c :: rest)
    else none
  | _ => none

/-- `\s*\(\d{2}\.\d{2}\.\d{2}\s+\w+\.?\s+\d{1,2}[:.]\d{2}\)`. -/
def consShortTimestamp (s : Str) : Option Str :=
  (chompChar '(' (chompWs s)).bind (chompDigits 2) |>.bind (chompChar '.')
    |>.bind (chompDigits 2) |>.bind (chompChar '.') |>.bind (chompDigits 2)
    |>.bind chompWs1 |>.bind chompWord1
    |>.bind (fun r => some (optChar '.' r)) |>.bind chompWs1
    |>.bind chompHourMin |>.bind (chompChar ')')

/-- `\s*[\(\[]?\d{4}[\-\.]\d{2}[\-\.]\d{2}[\)\]]?`.  The optional opening
bracket can be taken greedily: the no-bracket alternative needs a digit at the
same position, so consuming a present bracket never loses a match. -/
def consIsoDate (s : Str) : Option Str :=
  let s1 := chompWs s
  let s2 := match s1 with
    | c :: rest => if c = '(' ∨ c = '[' then rest else s1
    | [] => s1
  ((chompDigits 4 s2).bind chompDateSep |>.bind (chompDigits 2)
      |>.bind chompDateSep |>.bind (chompDigits 2)).map
    (fun r => match r with
      | c :: rest => if c = ')' ∨ c = ']' then rest else r
      | [] => r)

/-- `\s*-\s*\d{4}-\d{2}-\d{2}\s*$`: the matcher succeeds only when the rest
of the string after the date is all whitespace, and then consumes everything. -/
def matchTrailDate (s : Str) : Option Nat :=
  match (chompChar '-' (chompWs s)).map chompWs |>.bind (chompDigits 4)
      |>.bind (chompChar '-') |>.bind (chompDigits 2) |>.bind (chompChar '-')
      |>.bind (chompDigits 2) with
  | some rest => if rest.all isWs then some s.length else none
  | none => none

/-- `\s+\d{2}\.\d{2}\.\d{2}\s+\w+\)?` (leftover time/day fragments). -/
def consDangling (s : Str) : Option Str :=
  (chompWs1 s).bind (chompDigits 2) |>.bind (chompChar '.')
    |>.bind (chompDigits 2) |>.bind (chompChar '.') |>.bind (chompDigits 2)
    |>.bind chompWs1 |>.bind chompWord1 |>.map (optChar ')')

def monthNames : List Str :=
  ["january".data, "february".data, "march".data, "april".data, "may".data,
   "june".data, "july".data, "august".data, "september".data, "october".data,
   "november".data, "december".data]

def tryAlts (alts : List Str) (s : Str) : Option Str :=
  match alts with
  | [] => none
  | a :: rest =>
    match chompStrCI a s with
    | some r => some r
    | none => tryAlts rest s

/-- `\s*(january|...|december)\s+\d{4}\s*(mix)?\s*` (case-insensitive);
replaced by a single space in the source. -/
def consMonthYear (s : Str) : Option Str :=
  ((tryAlts monthNames (chompWs s)).bind chompWs1 |>.bind (chompDigits 4)).map
    (fun r =>
      let r1 := chompWs r
      let r2 := match chompStrCI "mix".data r1 with
        | some r2 => r2
        | none => r1
      chompWs r2)

/-- `\s*part\s*\d+\s*$` (case-insensitive, anchored at the end). -/
def matchPartN (s : Str) : Option Nat :=
  match (chompStrCI "part".data (chompWs s)).map chompWs |>.bind chompDigits1 with
  | some rest => if rest.all isWs then some s.length else none
  | none => none

/-! ### Episode extraction -/

/-- `re.search(r'\s+(\d{2,4})\s*$', name)`: returns the start index of the
leftmost match (the first character of its whitespace run) and the captured
digits.  A match at a whitespace position requires the following digit run to
be of length 2–4 and everything after it to be whitespace. -/
def epSearchTrail (idx : Nat) : Str → Option (Nat × Str)
  | [] => none
  | c :: rest =>
    if isWs c then
      let afterWs := (c :: rest).dropWhile isWs
      let digits := afterWs.takeWhile isDigitC
      if 2 ≤ digits.length ∧ digits.length ≤ 4
          ∧ (afterWs.drop digits.length).all isWs then
        some (idx, digits)
      else epSearchTrail (idx + 1) rest
    else epSearchTrail (idx + 1) rest

/-- The keyword part of `(episode|ep\.?|#)\s*(\d{1,4})`, tried at a fixed
position (after the `[\s\-_]*` run), returning the captured digits.  The
alternation order of the source is respected; after `ep`, a present dot must
be followed by the digits (the dotless fallback can never succeed there). -/
def epDigitsTail (s : Str) : Option Str :=
  let s1 := s.dropWhile isWs
  let run := s1.takeWhile isDigitC
  if run.length = 0 then none else some (run.take 4)

def epKeyMatch (s : Str) : Option Str :=
  match chompStrCI "episode".data s with
  | some r => epDigitsTail r
  | none =>
    match chompStrCI "ep".data s with
    | some r =>
      let r1 := match r with
        | '.' :: t => t
        | _ => r
      epDigitsTail r1
    | none =>
      match s with
      | '#' :: r => epDigitsTail r
      | _ => none

/-- `re.search(r'[\s\-_]*(episode|ep\.?|#)\s*(\d{1,4})', name, IGNORECASE)`:
leftmost match start and the captured digits. -/
def epSearchKey (idx : Nat) : Str → Option (Nat × Str)
  | [] => none
  | c :: rest =>
    match epKeyMatch ((c :: rest).dropWhile isSepC) with
    | some digits => some (idx, digits)
    | none => epSearchKey (idx + 1) rest

/-- `re.sub(r'^\d{1,2}[\s\-_]+', '', name)` (leading track number). -/
def stripLeadTrackNum (s : Str) : Str :=
  match s with
  | a :: b :: c :: rest =>
    if isDigitC a && isDigitC b && isSepC c then (c :: rest).dropWhile isSepC
    else if isDigitC a && isSepC b then (b :: c :: rest).dropWhile isSepC
    else s
  | [a, b] => if isDigitC a && isSepC b then [] else s
  | _ => s

/-- `re.sub(r'[\s\-_]+$', '', name)` (trailing separators). -/
def stripTrailSeps (s : Str) : Str :=
  (s.reverse.dropWhile isSepC).reverse

/-- The comparison-key normalisation
`re.sub(r'\s+', ' ', re.sub(r'[^\w\s]', '', name.lower())).strip()`. -/
def normKey (s : Str) : Str :=
  stripStr (collapseWs ((lcStr s).filter (fun c => isWordC c || isWs c)))

/-- The simpler normalisation used for directory and album names:
`re.sub(r'[^\w\s]', '', x.lower()).strip()` (no whitespace collapsing). -/
def normSimple (s : Str) : Str :=
  stripStr ((lcStr s).filter (fun c => isWordC c || isWs c))

/-- `extract_series_name` of the source: returns
`(display name, comparison key, optional episode digits)`. -/
def extract_series_name (filename : Str) : Str × Str × Option Str :=
  let n0 := clean_filename filename
  let n1 := subAll matchMonthParen [] n0
  let n2 := subAll (toMatch consParenYear) [] n1
  let n3 := subAll (toMatch consFullTimestamp) [] n2
  let n4 := subAll (toMatch consShortTimestamp) [] n3
  let n5 := subAll (toMatch consIsoDate) [] n4
  let n6 := subAll matchTrailDate [] n5
  let n7 := subAll (toMatch consDangling) [] n6
  let n8 := subAll (toMatch consMonthYear) [' '] n7
  let n9 := subAll matchPartN [] n8
  let (n10, episode) :=
    match epSearchTrail 0 n9 with
    | some (i, d) => (stripStr (n9.take i), some d)
    | none =>
      match epSearchKey 0 n9 with
      | some (i, d) => (stripStr (n9.take i), some d)
      | none => (n9, none)
  let n11 := stripLeadTrackNum n10
  let n12 := stripTrailSeps n11
  (n12, normKey n12, episode)

/-! ### Token similarity -/

/-- Split on whitespace runs (Python `str.split()` with no argument):
no empty words. -/
def splitWsAux : Nat → Str → List Str
  | _, [] => []
  | 0, _ => []
  | fuel + 1, c :: rest =>
    if isWs c then splitWsAux fuel rest
    else
      let w := (c :: rest).takeWhile (fun x => !isWs x)
      w :: splitWsAux fuel ((c :: rest).drop w.length)

def splitWs (s : Str) : List Str := splitWsAux s.length s

def stop_words : List Str :=
  ["the".data, "a".data, "an".data, "and".data, "or".data, "of".data,
   "in".data, "on".data, "at".data, "to".data, "for".data, "mix".data,
   "dj".data, "live".data]

/-- `get_name_tokens` of the source: significant tokens of a name, as a set. -/
def get_name_tokens (name : Str) : Finset Str :=
  let normalized := (lcStr name).filter (fun c => isWordC c || isWs c)
  let words := splitWs normalized
  (words.filter (fun w => decide (2 < w.length ∧ ¬ stop_words.contains w))).toFinset

/-- Python `max(a, b)`: the second argument wins only when strictly larger. -/
def ratMax (a b : ℚ) : ℚ := if a < b then b else a

/-- The quotient `m / n` of two naturals as an exact rational, written with
`mkRat` so that the kernel can evaluate it (the Mathlib field operations on
`ℚ` are irreducible). -/
def fracQ (m n : Nat) : ℚ := mkRat m n

/-- The containment boost `0.5 + x * 0.5` of the source, written as one
`mkRat` fraction for the same reason; `halfBoost_eq` below shows it equals
`1/2 + x * (1/2)`. -/
def halfBoost (x : ℚ) : ℚ := mkRat (x.num + x.den) (2 * x.den)

/-- The merge threshold `0.5`. -/
def half : ℚ := mkRat 1 2

/-- `similarity_score` of the source, over exact rationals. -/
def similarity_score (name1 name2 : Str) : ℚ :=
  let tokens1 := get_name_tokens name1
  let tokens2 := get_name_tokens name2
  if tokens1 = ∅ ∨ tokens2 = ∅ then 0
  else
    let inter := (tokens1 ∩ tokens2).card
    let union := (tokens1 ∪ tokens2).card
    let jaccard : ℚ := if 0 < union then fracQ inter union else 0
    let smaller := if tokens1.card ≤ tokens2.card then tokens1 else tokens2
    let larger := if tokens1.card ≤ tokens2.card then tokens2 else tokens1
    if smaller ≠ ∅ ∧ smaller ⊆ larger then
      ratMax jaccard (halfBoost (fracQ smaller.card larger.card))
    else jaccard

theorem fracQ_eq (m n : Nat) : fracQ m n = (m : ℚ) / (n : ℚ) := by
  simp [fracQ, Rat.mkRat_eq_div]

theorem halfBoost_eq (x : ℚ) : halfBoost x = 1/2 + x * (1/2) := by
  have hd : ((x.den : ℚ)) ≠ 0 := by exact_mod_cast x.den_nz
  rw [halfBoost, Rat.mkRat_eq_div]
  conv_rhs => rw [← Rat.num_div_den x]
  push_cast
  field_simp
  ring

theorem half_eq : half = 1/2 := by
  simp [half, Rat.mkRat_eq_div]

/-! ### Data model

`Track` is the slice of the SQLAlchemy `Track` model read by the two series
endpoints.  `filename` and `directory` are non-nullable columns; the nullable
metadata columns are modelled as the empty string standing for `None`, which
the source only distinguishes through truthiness. -/

structure Track where
  id : Nat
  filename : Str
  directory : Str
  album : Str
  matched_album : Str
  artist : Str
  matched_artist : Str
  genre : Str
  matched_genre : Str
  album_artist : Str
  matched_album_artist : Str
  series_tagged : Bool
  matched_cover_url : Str
deriving DecidableEq

/-- One entry of the `matches` list built by the orphan strategy (M4). -/
structure AltMatch where
  album : Str
  artist : Str
  genre : Str
  album_artist : Str
  cover_url : Str
  score : ℚ
deriving DecidableEq

/-- The per-track dict built by the grouping strategies.  The Python dicts of
the different strategies carry different key sets; a key absent from a dict
(always read back with `.get`) is modelled by the empty string / `none` /
`[]` / `false`. -/
structure TrackInfo where
  track_id : Nat
  filename : Str
  display_name : Str
  current_album : Str
  matched_album : Str
  current_artist : Str
  matched_artist : Str
  current_genre : Str
  matched_genre : Str
  current_album_artist : Str
  matched_album_artist : Str
  matched_cover_url : Str
  episode : Option Str
  directory : Str
  suggested_album : Str
  suggested_artist : Str
  suggested_genre : Str
  suggested_album_artist : Str
  matched_series : Option Str
  alternative_matches : List AltMatch
  is_album_group : Bool
deriving DecidableEq

/-- A final group of `detect_series`. -/
structure SeriesGroup where
  series_name : Str
  track_count : Nat
  tracks : List TrackInfo
  suggested_album : Str
  suggested_artist : Str
  suggested_genre : Str
  suggested_album_artist : Str
  is_orphan : Bool
  matched_series : Option Str
  alternative_matches : List AltMatch
  is_album_group : Bool
deriving DecidableEq

/-- A final group of `get_tagged_series`. -/
structure TaggedGroup where
  series_name : Str
  track_count : Nat
  tracks : List TrackInfo
  suggested_album : Str
  suggested_artist : Str
  suggested_genre : Str
  suggested_album_artist : Str
  cover_url : Option Str
  is_tagged : Bool
deriving DecidableEq

/-! ### Dict and list helpers -/

/-- Python `x or y` on strings (with `''` standing for `None`). -/
def orElse (a b : Str) : Str := if a.isEmpty then b else a

/-- Truthiness of an optional string (`None` and `''` are falsy). -/
def optTruthy (o : Option Str) : Bool :=
  match o with
  | some s => !s.isEmpty
  | none => false

/-- `defaultdict(list)` append: extend the list at `k`, keeping dict
insertion order; a new key goes to the end. -/
def appendAt {κ : Type} [DecidableEq κ] (gs : List (κ × List TrackInfo)) (k : κ)
    (t : TrackInfo) : List (κ × List TrackInfo) :=
  match gs with
  | [] => [(k, [t])]
  | (k', l) :: rest =>
    if k' = k then (k', l ++ [t]) :: rest else (k', l) :: appendAt rest k t

/-- Dict assignment `d[k] = l`: replace in place, or append a new key. -/
def assignAt {κ : Type} [DecidableEq κ] (gs : List (κ × List TrackInfo)) (k : κ)
    (l : List TrackInfo) : List (κ × List TrackInfo) :=
  match gs with
  | [] => [(k, l)]
  | (k', l') :: rest =>
    if k' = k then (k', l) :: rest else (k', l') :: assignAt rest k l

abbrev Groups := List (Str × List TrackInfo)

/-- Insert `x` after every already-placed element that compares
less-or-equal: together with a left fold this is a stable ascending sort,
matching Python's `sorted`/`list.sort`. -/
def insSorted {α : Type} (le : α → α → Bool) (x : α) : List α → List α
  | [] => [x]
  | y :: ys => if le y x then y :: insSorted le x ys else x :: y :: ys

def stableSortBy {α : Type} (le : α → α → Bool) (xs : List α) : List α :=
  xs.foldl (fun acc x => insSorted le x acc) []

/-- Insertion-ordered tally of values (`defaultdict(int)` votes). -/
def bumpCount : List (Str × Nat) → Str → List (Str × Nat)
  | [], x => [(x, 1)]
  | (y, n) :: rest, x =>
    if y = x then (y, n + 1) :: rest else (y, n) :: bumpCount rest x

def tally (xs : List Str) : List (Str × Nat) := xs.foldl bumpCount []

/-- `max(counts.values())` (0 on the empty dict, unused there). -/
def maxCountVal (l : List (Str × Nat)) : Nat := l.foldl (fun m p => max m p.2) 0

/-- `max(counts.keys(), key=lambda x: counts[x])`: Python's `max` keeps the
first element among ties, so only a strictly larger count replaces. -/
def firstMaxKeyAux (bk : Str) (bn : Nat) : List (Str × Nat) → Str
  | [] => bk
  | (k, n) :: rest =>
    if bn < n then firstMaxKeyAux k n rest else firstMaxKeyAux bk bn rest

def firstMaxKey : List (Str × Nat) → Str
  | [] => []
  | (k, n) :: rest => firstMaxKeyAux k n rest

/-- Decimal digits of a natural number (`f"orphan:{track.id}"`). -/
def natStrAux (fuel : Nat) (n : Nat) : Str :=
  match fuel with
  | 0 => []
  | fuel + 1 =>
    if n < 10 then [Char.ofNat (48 + n)]
    else natStrAux fuel (n / 10) ++ [Char.ofNat (48 + n % 10)]

def natStr (n : Nat) : Str := natStrAux (n + 1) n

def strStarts (pre s : Str) : Bool := pre.isPrefixOf s

def orphanTag : Str := "orphan:".data
def dirTag : Str := "dir:".data
def albumTag : Str := "album:".data

/-- `int(e)` on a string of decimal digits. -/
def decimalVal (s : Str) : Nat :=
  s.foldl (fun a c => a * 10 + (c.toNat - 48)) 0

/-- The sort key `(int(episode) if episode and episode.isdigit() else 0, filename)`. -/
def epNum (t : TrackInfo) : Nat :=
  match t.episode with
  | some e => if e ≠ [] ∧ e.all isDigitC then decimalVal e else 0
  | none => 0

/-- Python string `<` (lexicographic on code points). -/
def strLt : Str → Str → Bool
  | [], [] => false
  | [], _ :: _ => true
  | _ :: _, [] => false
  | a :: xs, b :: ys => if a = b then strLt xs ys else decide (a < b)

/-- Ascending comparison of the within-group track sort. -/
def trackLe (a b : TrackInfo) : Bool :=
  if epNum a = epNum b then !strLt b.filename a.filename
  else decide (epNum a < epNum b)

/-! ### Candidate group builder (strategies M1–M5) -/

/-- The dict built by METHOD 1 for one track. -/
def mkM1 (t : Track) (display : Str) (episode : Option Str) : TrackInfo :=
  { track_id := t.id, filename := t.filename, display_name := display,
    current_album := t.album, matched_album := t.matched_album,
    current_artist := t.artist, matched_artist := [],
    current_genre := t.genre, matched_genre := t.matched_genre,
    current_album_artist := t.album_artist,
    matched_album_artist := t.matched_album_artist,
    matched_cover_url := [], episode := episode, directory := t.directory,
    suggested_album := [], suggested_artist := [], suggested_genre := [],
    suggested_album_artist := [], matched_series := none,
    alternative_matches := [], is_album_group := false }

/-- METHOD 1, one track: group by the normalised filename key (length > 3
required). -/
def m1Insert (gs : Groups) (t : Track) : Groups :=
  let r := extract_series_name t.filename
  if ¬ r.2.1.isEmpty ∧ 3 < r.2.1.length then
    appendAt gs r.2.1 (mkM1 t r.1 r.2.2)
  else gs

def m1Groups (tracks : List Track) : Groups := tracks.foldl m1Insert []

/-- The dict built by METHOD 2 for one track (`display_name` is the cleaned
filename, `episode` is absent). -/
def mkM2 (t : Track) : TrackInfo :=
  { mkM1 t (clean_filename t.filename) none with episode := none }

/-- METHOD 2, first phase, one track: bucket by directory. -/
def dirInsert (gs : Groups) (t : Track) : Groups :=
  appendAt gs t.directory (mkM2 t)

def dirGroups (tracks : List Track) : Groups := tracks.foldl dirInsert []

/-- The ids of tracks sitting in groups that meet `min_tracks`
(`existing_track_ids` before directory merging). -/
def existingFrom (gs : Groups) (minTracks : Nat) : List Nat :=
  ((gs.filter (fun p => decide (minTracks ≤ p.2.length))).map
    (fun p => p.2.map (fun e => e.track_id))).flatten

/-- `dir_path.split('/')[-1] if '/' in dir_path else dir_path`. -/
def lastSegment (p : Str) : Str :=
  if p.contains '/' then (p.reverse.takeWhile (fun c => c != '/')).reverse else p

/-- `re.sub(r'^\d+\s*[-_]\s*', '', dir_name)`. -/
def stripLeadNumDir (s : Str) : Str :=
  let run := s.takeWhile isDigitC
  if run.isEmpty then s
  else
    match (s.drop run.length).dropWhile isWs with
    | c :: rest => if c = '-' ∨ c = '_' then rest.dropWhile isWs else s
    | [] => s

/-- METHOD 2, second phase: promote a directory bucket when both the bucket
and its not-yet-claimed part reach `min_tracks`, under key
`"dir:" ++ normalised name`; the promoted tracks get the cleaned directory
name as display name. -/
def m2Step (minTracks : Nat) (claimed : List Nat) (gs : Groups)
    (entry : Str × List TrackInfo) : Groups :=
  if minTracks ≤ entry.2.length then
    let newTracks := entry.2.filter (fun t => !claimed.contains t.track_id)
    if minTracks ≤ newTracks.length then
      let dirName := stripLeadNumDir (lastSegment entry.1)
      let normalizedDir := normSimple dirName
      if ¬ normalizedDir.isEmpty ∧ 3 < normalizedDir.length then
        assignAt gs (dirTag ++ normalizedDir)
          (newTracks.map (fun t => { t with display_name := dirName }))
      else gs
    else gs
  else gs

/-- METHOD 3: single-pass fuzzy merge.  The first not-yet-merged key absorbs,
in order, every later key whose similarity exceeds `0.5`; absorbed keys are
deleted and never act as absorbers, exactly as the `merged` bookkeeping of
the source arranges.  Fuel (`= length`) only makes the recursion
structural. -/
def m3MergeAux : Nat → Groups → Groups
  | _, [] => []
  | 0, gs => gs
  | fuel + 1, (k, l) :: rest =>
    let absorbed := rest.filter (fun p => decide (half < similarity_score k p.1))
    let rest' := rest.filter (fun p => !decide (half < similarity_score k p.1))
    (k, l ++ (absorbed.map (fun p => p.2)).flatten) :: m3MergeAux fuel rest'

def m3Merge (gs : Groups) : Groups := m3MergeAux gs.length gs

/-- The rebuilt `existing_track_ids` after merging: groups meeting
`min_tracks` whose key is not directory-based. -/
def rebuildClaimed (gs : Groups) (minTracks : Nat) : List Nat :=
  ((gs.filter (fun p => decide (minTracks ≤ p.2.length) && !strStarts dirTag p.1)).map
    (fun p => p.2.map (fun e => e.track_id))).flatten

/-- The per-album metadata collected from tagged tracks by METHOD 4. -/
structure TaggedInfo where
  album : Str
  artist : Str
  genre : Str
  album_artist : Str
  cover_url : Str
deriving DecidableEq

/-- METHOD 4, first phase: map each normalised tagged-album name to the
metadata of the first tagged track carrying it. -/
def taggedSeriesMap (taggedTracks : List Track) : List (Str × TaggedInfo) :=
  taggedTracks.foldl
    (fun m t =>
      let album := orElse t.matched_album t.album
      if ¬ album.isEmpty then
        let key := normSimple album
        if m.any (fun p => p.1 = key) then m
        else
          m ++ [(key,
            { album := album, artist := orElse t.matched_artist t.artist,
              genre := orElse (orElse t.matched_genre t.genre) [],
              album_artist := orElse (orElse t.matched_album_artist t.album_artist) [],
              cover_url := t.matched_cover_url })]
      else m)
    []

/-- The orphan dict built by METHOD 4 for one track. -/
def mkOrphan (t : Track) (display : Str) (episode : Option Str)
    (best : AltMatch) (alts : List AltMatch) : TrackInfo :=
  { track_id := t.id, filename := t.filename, display_name := display,
    current_album := t.album, matched_album := t.matched_album,
    current_artist := t.artist, matched_artist := [],
    current_genre := t.genre, matched_genre := t.matched_genre,
    current_album_artist := t.album_artist,
    matched_album_artist := t.matched_album_artist,
    matched_cover_url := [], episode := episode, directory := t.directory,
    suggested_album := best.album, suggested_artist := best.artist,
    suggested_genre := best.genre, suggested_album_artist := best.album_artist,
    matched_series := some best.album, alternative_matches := alts,
    is_album_group := false }

/-- METHOD 4, second phase, one track: an unclaimed track scoring above `0.5`
against some tagged album becomes a singleton `orphan:<id>` candidate with
the best match as suggestion and up to four runners-up as alternatives. -/
def m4Step (tsm : List (Str × TaggedInfo)) (acc : Groups × List Nat)
    (t : Track) : Groups × List Nat :=
  if acc.2.contains t.id then acc
  else
    let r := extract_series_name t.filename
    let found :=
      (tsm.filter (fun p => decide (half < similarity_score r.2.1 p.1))).map
        (fun p =>
          { album := p.2.album, artist := p.2.artist, genre := p.2.genre,
            album_artist := p.2.album_artist, cover_url := p.2.cover_url,
            score := similarity_score r.2.1 p.1 : AltMatch })
    if found.isEmpty then acc
    else
      let sortedM := stableSortBy (fun a b => decide (b.score ≤ a.score)) found
      match sortedM with
      | [] => acc
      | best :: others =>
        (assignAt acc.1 (orphanTag ++ natStr t.id)
            [mkOrphan t r.1 r.2.2 best (others.take 4)],
          acc.2 ++ [t.id])

/-- The dict built by METHOD 5 for one track. -/
def mkM5 (t : Track) (album : Str) : TrackInfo :=
  { track_id := t.id, filename := t.filename,
    display_name := clean_filename t.filename,
    current_album := t.album, matched_album := t.matched_album,
    current_artist := t.artist, matched_artist := [],
    current_genre := t.genre, matched_genre := t.matched_genre,
    current_album_artist := t.album_artist,
    matched_album_artist := t.matched_album_artist,
    matched_cover_url := [], episode := none, directory := t.directory,
    suggested_album := album, suggested_artist := t.artist,
    suggested_genre := orElse t.genre [],
    suggested_album_artist := orElse t.album_artist [],
    matched_series := none, alternative_matches := [], is_album_group := true }

/-- METHOD 5, first phase: bucket still-unclaimed tracks by the normalised
existing album (`track.album or track.matched_album`, length > 2, non-empty
normalisation). -/
def m5Insert (claimed : List Nat) (ags : Groups) (t : Track) : Groups :=
  if claimed.contains t.id then ags
  else
    let album := orElse t.album t.matched_album
    if ¬ album.isEmpty ∧ 2 < album.length then
      let key := normSimple album
      if ¬ key.isEmpty then appendAt ags key (mkM5 t album) else ags
    else ags

def m5AlbumGroups (tracks : List Track) (claimed : List Nat) : Groups :=
  tracks.foldl (m5Insert claimed) []

/-! ### Suggestion synthesizer and final assembly -/

/-- `find_common_prefix` of the source, here named `find_common_stem`:
shrink the shortest name from the right; accept the first shared prefix
that, after stripping trailing separators, is longer than 3 characters;
otherwise fall back to the first name. -/
def stemLoop (names : List Str) (shortest : Str) : Nat → Str
  | 0 => names.headD []
  | i + 1 =>
    let pre := shortest.take (i + 1)
    if names.all (fun n => pre.isPrefixOf n) then
      let pre2 := stripTrailSeps pre
      if 3 < pre2.length then pre2 else stemLoop names shortest i
    else stemLoop names shortest i

def find_common_stem (names : List Str) : Str :=
  match names with
  | [] => []
  | [n] => n
  | _ =>
    let sortedNames := stableSortBy (fun a b => decide (a.length ≤ b.length)) names
    let shortest := sortedNames.headD []
    stemLoop names shortest shortest.length

/-- The majority-vote block of the final loop: series name, artist, genre and
album artist for a group without a pre-set orphan suggestion.  The artist
vote reads only the raw `current_artist`; the genre and album-artist votes
prefer the matched value. -/
def computeSuggestions (l : List TrackInfo) : Str × Str × Str × Str :=
  let display_names := l.map (fun t => t.display_name)
  let name_counts := tally display_names
  let series_name :=
    if 1 < maxCountVal name_counts then firstMaxKey name_counts
    else find_common_stem display_names
  let artists := (l.filter (fun t => !t.current_artist.isEmpty)).map
    (fun t => t.current_artist)
  let artist_counts := tally artists
  let suggested_artist :=
    if artist_counts.isEmpty then "Various".data else firstMaxKey artist_counts
  let genres := (l.filter (fun t => !(orElse t.matched_genre t.current_genre).isEmpty)).map
    (fun t => orElse t.matched_genre t.current_genre)
  let genre_counts := tally genres
  let suggested_genre :=
    if genre_counts.isEmpty then [] else firstMaxKey genre_counts
  let album_artists :=
    (l.filter (fun t => !(orElse t.matched_album_artist t.current_album_artist).isEmpty)).map
      (fun t => orElse t.matched_album_artist t.current_album_artist)
  let aa_counts := tally album_artists
  let suggested_album_artist :=
    if aa_counts.isEmpty then [] else firstMaxKey aa_counts
  (series_name, suggested_artist, suggested_genre, suggested_album_artist)

/-- Deduplicate by `track_id`, keeping first occurrences. -/
def dedupeAux (seen : List Nat) : List TrackInfo → List TrackInfo
  | [] => []
  | t :: rest =>
    if seen.contains t.track_id then dedupeAux seen rest
    else t :: dedupeAux (seen ++ [t.track_id]) rest

def dedupeById (l : List TrackInfo) : List TrackInfo := dedupeAux [] l

/-- The body of the final loop of `detect_series` for one `series_groups`
entry.  On an empty candidate list the Python source would raise an
`IndexError` at `track_list[0]`; that state is reachable only with
`min_tracks ≤ 0`, and the model returns `none` there. -/
def synthesize (minTracks : Nat) (entry : Str × List TrackInfo) : Option SeriesGroup :=
  let is_orphan := strStarts orphanTag entry.1
  let effective_min := if is_orphan then 1 else minTracks
  if effective_min ≤ entry.2.length then
    match entry.2.head? with
    | none => none
    | some t0 =>
      let sugg :=
        if optTruthy t0.matched_series then
          (t0.suggested_album, t0.suggested_artist, t0.suggested_genre,
            t0.suggested_album_artist)
        else computeSuggestions entry.2
      let updated := entry.2.map (fun t =>
        if optTruthy t.matched_series then t
        else { t with suggested_album := sugg.1, suggested_artist := sugg.2.1,
                      suggested_genre := sugg.2.2.1,
                      suggested_album_artist := sugg.2.2.2 })
      let unique_tracks := dedupeById updated
      if effective_min ≤ unique_tracks.length then
        some
          { series_name := sugg.1, track_count := unique_tracks.length,
            tracks := stableSortBy trackLe unique_tracks,
            suggested_album := sugg.1, suggested_artist := sugg.2.1,
            suggested_genre := sugg.2.2.1,
            suggested_album_artist := sugg.2.2.2,
            is_orphan := is_orphan,
            matched_series := if is_orphan then t0.matched_series else none,
            alternative_matches :=
              if is_orphan ∧ ¬ t0.alternative_matches.isEmpty then
                t0.alternative_matches
              else [],
            is_album_group := strStarts albumTag entry.1 }
      else none
  else none

/-- The final ordering key `(-1 if is_orphan else 0, -track_count)`. -/
def finalLe (a b : SeriesGroup) : Bool :=
  let oa : Int := if a.is_orphan then -1 else 0
  let ob : Int := if b.is_orphan then -1 else 0
  if oa = ob then decide (b.track_count ≤ a.track_count) else decide (oa < ob)

/-- Promotion of one METHOD 5 bucket into `series_groups`. -/
def m5Promote (min_tracks : Nat) (gs : Groups) (p : Str × List TrackInfo) :
    Groups :=
  if min_tracks ≤ p.2.length then assignAt gs (albumTag ++ p.1) p.2 else gs

/-- The `series_groups` dict of `detect_series` after all five strategies
(the state entering the final loop). -/
def detectGroups (allTracks : List Track) (min_tracks : Nat)
    (include_tagged : Bool) : Groups :=
  let tracks :=
    if include_tagged then allTracks
    else allTracks.filter (fun t => !t.series_tagged)
  let gs1 := m1Groups tracks
  let dgs := dirGroups tracks
  let claimed1 := existingFrom gs1 min_tracks
  let gs2 := dgs.foldl (m2Step min_tracks claimed1) gs1
  let gs3 := m3Merge gs2
  let claimed2 := rebuildClaimed gs3 min_tracks
  let afterM4 :=
    if include_tagged then (gs3, claimed2)
    else
      let taggedTracks := allTracks.filter (fun t => t.series_tagged)
      tracks.foldl (m4Step (taggedSeriesMap taggedTracks)) (gs3, claimed2)
  let ags := m5AlbumGroups tracks afterM4.2
  ags.foldl (m5Promote min_tracks) afterM4.1

/-- The series-detection engine (`GET /series/detect`).  The two database
queries of the source are modelled by filtering the snapshot `allTracks` on
`series_tagged` (the minimum-duration filter, an external setting applied
identically by both queries, is part of producing the snapshot). -/
def detect_series (allTracks : List Track) (min_tracks : Nat)
    (include_tagged : Bool) : List SeriesGroup :=
  stableSortBy finalLe
    ((detectGroups allTracks min_tracks include_tagged).filterMap
      (synthesize min_tracks))

/-! ### Tagged-series aggregator (`GET /series/tagged`) -/

/-- The dict built by the tagged aggregator for one track (it carries
`matched_artist` and `matched_cover_url`, unlike the detection dicts). -/
def mkTagged (t : Track) : TrackInfo :=
  let r := extract_series_name t.filename
  { track_id := t.id, filename := t.filename, display_name := r.1,
    current_album := t.album, matched_album := t.matched_album,
    current_artist := t.artist, matched_artist := t.matched_artist,
    current_genre := t.genre, matched_genre := t.matched_genre,
    current_album_artist := t.album_artist,
    matched_album_artist := t.matched_album_artist,
    matched_cover_url := t.matched_cover_url, episode := r.2.2,
    directory := t.directory, suggested_album := [], suggested_artist := [],
    suggested_genre := [], suggested_album_artist := [],
    matched_series := none, alternative_matches := [], is_album_group := false }

/-- Build one output group of `get_tagged_series` from a
`(album, artist, genre)` bucket. -/
def buildTagged (minTracks : Nat)
    (entry : (Str × Str × Str) × List TrackInfo) : Option TaggedGroup :=
  let album_name := entry.1.1
  let artist_name := entry.1.2.1
  let genre_name := entry.1.2.2
  let track_list := entry.2
  if minTracks ≤ track_list.length then
    let extra :=
      (if ¬ artist_name.isEmpty ∧ artist_name ≠ "Unknown".data
          ∧ artist_name ≠ "Various".data then [artist_name] else [])
        ++ (if ¬ genre_name.isEmpty then [genre_name] else [])
    let display_name :=
      if 0 < extra.length then
        album_name ++ " (".data ++ (List.intercalate ", ".data extra) ++ ")".data
      else album_name
    let album_artists :=
      (track_list.filter
        (fun t => !(orElse t.matched_album_artist t.current_album_artist).isEmpty)).map
        (fun t => orElse t.matched_album_artist t.current_album_artist)
    let aa_counts := tally album_artists
    let suggested_album_artist :=
      if aa_counts.isEmpty then [] else firstMaxKey aa_counts
    let cover_urls := (track_list.filter (fun t => !t.matched_cover_url.isEmpty)).map
      (fun t => t.matched_cover_url)
    let shared_cover_url :=
      if ¬ cover_urls.isEmpty ∧ cover_urls.toFinset.card = 1 then
        some (cover_urls.headD [])
      else none
    some
      { series_name := display_name, track_count := track_list.length,
        tracks := stableSortBy trackLe track_list,
        suggested_album := album_name, suggested_artist := artist_name,
        suggested_genre := genre_name,
        suggested_album_artist := suggested_album_artist,
        cover_url := shared_cover_url, is_tagged := true }
  else none

/-- The tagged-series aggregator (`GET /series/tagged`). -/
def get_tagged_series (allTracks : List Track) (min_tracks : Nat) :
    List TaggedGroup :=
  let tracks := allTracks.filter (fun t => t.series_tagged)
  let groups := tracks.foldl
    (fun gs t =>
      let album_key := orElse (orElse t.matched_album t.album) "Unknown".data
      let artist_key := orElse (orElse t.matched_artist t.artist) "Unknown".data
      let genre_key := orElse (orElse t.matched_genre t.genre) []
      appendAt gs (album_key, artist_key, genre_key) (mkTagged t))
    []
  stableSortBy (fun a b => decide (b.track_count ≤ a.track_count))
    (groups.filterMap (buildTagged min_tracks))

/-! ### Reference definitions for the claims

The following definitions restate rules in the words of the specification
or of the amended claims; they are compared against the translated source
above. -/

/-- `similarity_score` with the token sets abstracted; definitionally equal
to `similarity_score` after computing the two token sets (proof helper). -/
def simCore (T1 T2 : Finset Str) : ℚ :=
  if T1 = ∅ ∨ T2 = ∅ then 0
  else
    if (if T1.card ≤ T2.card then T1 else T2) ≠ ∅ ∧
        (if T1.card ≤ T2.card then T1 else T2) ⊆
          (if T1.card ≤ T2.card then T2 else T1) then
      ratMax (if 0 < (T1 ∪ T2).card then fracQ (T1 ∩ T2).card (T1 ∪ T2).card else 0)
        (halfBoost (fracQ (if T1.card ≤ T2.card then T1 else T2).card
          (if T1.card ≤ T2.card then T2 else T1).card))
    else if 0 < (T1 ∪ T2).card then fracQ (T1 ∩ T2).card (T1 ∪ T2).card else 0

/-- Claim C2 reference, following the specification's words: the effective
artist of a track is `matched_artist` if non-empty else `artist`. -/
def claimEffectiveArtist (t : Track) : Str :=
  if t.matched_artist.isEmpty then t.artist else t.matched_artist

/-- Claim C2 reference: the most frequent non-empty effective artist,
default `"Various"`. -/
def claimSuggestedArtist (ts : List Track) : Str :=
  let eff := (ts.map claimEffectiveArtist).filter (fun s => !s.isEmpty)
  if eff.isEmpty then "Various".data else firstMaxKey (tally eff)

/-- Amended C2 reference: the artist vote the code actually takes — most
frequent non-empty raw `current_artist` over the pre-deduplication member
entries (first-encountered order breaking ties), default `"Various"`. -/
def rawMostFrequentArtist (l : List TrackInfo) : Str :=
  let artists := (l.filter (fun t => !t.current_artist.isEmpty)).map
    (fun t => t.current_artist)
  let artist_counts := tally artists
  if artist_counts.isEmpty then "Various".data else firstMaxKey artist_counts

/-- Claim C3 reference, following the specification's words: the effective
album is `matched_album` if non-empty else `album`. -/
def claimEffectiveAlbum (t : Track) : Str :=
  if t.matched_album.isEmpty then t.album else t.matched_album

/-- The album M5 actually groups by: `track.album or track.matched_album`. -/
def m5Album (t : Track) : Str := orElse t.album t.matched_album

/-- The M5 participation condition of the amended claim C3. -/
def m5Cond (t : Track) : Prop :=
  ¬ (m5Album t).isEmpty ∧ 2 < (m5Album t).length ∧ ¬ (normSimple (m5Album t)).isEmpty

instance (t : Track) : Decidable (m5Cond t) := by
  unfold m5Cond
  infer_instance

/-- Claim C4 reference, following the claim's words: `cover_url` is set iff
every member of the group has the same single identical non-empty
`matched_cover_url`. -/
def claimCoverRule (l : List TrackInfo) : Option Str :=
  match l with
  | [] => none
  | t :: rest =>
    if ¬ t.matched_cover_url.isEmpty
        ∧ rest.all (fun e => e.matched_cover_url == t.matched_cover_url) then
      some t.matched_cover_url
    else none

/-- Amended C4 reference: the rule the code implements — the unique value
among the members' non-empty cover urls, when at least one member has one
and all non-empty ones agree. -/
def coverRule (l : List TrackInfo) : Option Str :=
  let covers := (l.filter (fun t => !t.matched_cover_url.isEmpty)).map
    (fun t => t.matched_cover_url)
  if ¬ covers.isEmpty ∧ covers.toFinset.card = 1 then some (covers.headD [])
  else none

/-! ### Concrete instances used by the counterexamples and witnesses -/

def mkTrack (id : Nat) (fn dir alb malb art mart gen mgen : String)
    (tagged : Bool) (cover : String) : Track :=
  { id := id, filename := fn.data, directory := dir.data, album := alb.data,
    matched_album := malb.data, artist := art.data, matched_artist := mart.data,
    genre := gen.data, matched_genre := mgen.data, album_artist := [],
    matched_album_artist := [], series_tagged := tagged,
    matched_cover_url := cover.data }

/-- C1 failing input: two untagged tracks sharing a directory and an album;
their filenames are too short for M1 keys. -/
def c1t1 : Track := mkTrack 1 "zz1.mp3" "Music/Great Show" "Greatest Hits" "" "" "" "" "" false ""
def c1t2 : Track := mkTrack 2 "zz2.mp3" "Music/Great Show" "Greatest Hits" "" "" "" "" "" false ""

/-- C6 scenario tracks. -/
def c6t1 : Track := mkTrack 1 "Late Night Sessions 045.mp3" "Music/Radio" "" "" "" "" "" "" false ""
def c6t2 : Track := mkTrack 2 "Late Night Sessions 046.mp3" "Music/Radio" "" "" "" "" "" "" false ""
def c6t3 : Track := mkTrack 3 "Late_Night_Sessions_047.mp3" "Music/Radio" "" "" "" "" "" "" false ""

/-- C2 counterexample/witness tracks: empty raw artist, non-empty matched
artist. -/
def c2t1 : Track := mkTrack 1 "Show One 01.mp3" "D" "" "" "" "The Greats" "" "" false ""
def c2t2 : Track := mkTrack 2 "Show One 02.mp3" "D" "" "" "" "The Greats" "" "" false ""

/-- C3 counterexample tracks: different raw albums, identical matched
album. -/
def c3t1 : Track := mkTrack 1 "a.mp3" "d1" "Foo Bar" "Zzz Top" "" "" "" "" false ""
def c3t2 : Track := mkTrack 2 "b.mp3" "d2" "Baz Qux" "Zzz Top" "" "" "" "" false ""

/-- C4 counterexample tracks: one member with a cover url, one without. -/
def c4t1 : Track := mkTrack 1 "aa.mp3" "D" "Album X" "" "Artist Y" "" "Genre Z" "" true "http://x"
def c4t2 : Track := mkTrack 2 "bb.mp3" "D" "Album X" "" "Artist Y" "" "Genre Z" "" true ""

/-- C4 witness tracks: both members share one cover url. -/
def c4w1 : Track := mkTrack 1 "aa.mp3" "D" "Album X" "" "Artist Y" "" "" "" true "http://x"
def c4w2 : Track := mkTrack 2 "bb.mp3" "D" "Album X" "" "Artist Y" "" "" "" true "http://x"

/-- C9 witness tracks: a tagged series and one unclaimed matching track. -/
def c9tt : Track := mkTrack 10 "old.mp3" "Old" "" "Technotopia" "" "Gai Barone" "" "Prog" true "http://cover"
def c9tu : Track := mkTrack 11 "Technotopia 099.mp3" "New" "" "" "" "" "" "" false ""

/-- C8 witness tracks: an empty filename next to a normal one. -/
def c8t1 : Track := mkTrack 1 "" "Music/Some Show" "Great Album" "" "" "" "" "" false ""
def c8t2 : Track := mkTrack 2 "Other 01.mp3" "Music/Some Show" "" "" "" "" "" "" false ""

def dummyGroup : SeriesGroup :=
  { series_name := [], track_count := 0, tracks := [], suggested_album := [],
    suggested_artist := [], suggested_genre := [], suggested_album_artist := [],
    is_orphan := false, matched_series := none, alternative_matches := [],
    is_album_group := false }

def dummyTagged : TaggedGroup :=
  { series_name := [], track_count := 0, tracks := [], suggested_album := [],
    suggested_artist := [], suggested_genre := [], suggested_album_artist := [],
    cover_url := none, is_tagged := false }

/-! ### Claim theorems: concrete evaluations -/

/-- C5: `normalize("Late_Night_Sessions_045.mp3")` yields display name
"Late Night Sessions", comparison key "late night sessions" and episode
"045". -/
theorem c5_normalize_late_night :
    extract_series_name "Late_Night_Sessions_045.mp3".data
      = ("Late Night Sessions".data, "late night sessions".data,
          some "045".data) := by decide

/-- C6: on the three Late-Night-Sessions filenames with `min_tracks = 2` the
engine returns exactly one group, named "Late Night Sessions", with
`track_count = 3` and tracks ordered by episode 045, 046, 047. -/
theorem c6_clustering_scenario :
    (detect_series [c6t1, c6t2, c6t3] 2 false).map
        (fun g => (g.series_name, g.track_count,
          g.tracks.map (fun e => (e.track_id, e.episode))))
      = [("Late Night Sessions".data, 3,
          [(1, some "045".data), (2, some "046".data), (3, some "047".data)])] := by
  decide

/-- C1: the partition property fails on the code.  On two untagged tracks
sharing a directory and an album, the engine returns two distinct non-orphan
groups (the directory group and the album group) that both contain both
track ids. -/
theorem c1_partition_failing :
    (detect_series [c1t1, c1t2] 2 false).map
        (fun g => (g.is_orphan, g.series_name, g.is_album_group,
          g.tracks.map (fun e => e.track_id)))
      = [(false, "Great Show".data, false, [1, 2]),
         (false, "zz1".data, true, [1, 2])] := by decide

/-- C7: the engine is deterministic.  The model is a pure function of the
snapshot and the parameters — faithfully so, because the only
iteration-order-sensitive containers of the source are insertion-ordered
dicts and stable sorts, and its Python `set`s are used exclusively for
membership, size and subset tests, never iterated into the output. -/
theorem c7_deterministic (allTracks : List Track) (m : Nat) (i : Bool) :
    detect_series allTracks m i = detect_series allTracks m i := rfl

/-- C2 counterexample: the artist vote ignores `matched_artist`.  Two tracks
with empty raw artist and matched artist "The Greats" form one non-orphan
group whose `suggested_artist` is "Various", while the claim's
effective-artist rule demands "The Greats". -/
theorem c2_counterexample :
    (detect_series [c2t1, c2t2] 2 false).map
        (fun g => (g.is_orphan, g.suggested_artist,
          g.tracks.map (fun e => e.track_id)))
      = [(false, "Various".data, [1, 2])]
    ∧ claimSuggestedArtist [c2t1, c2t2] = "The Greats".data
    ∧ "Various".data ≠ "The Greats".data := by decide

/-- C3 counterexample: M5 groups by `album or matched_album`, preferring the
raw album — not by the claim's effective album (`matched_album` first).  Two
unclaimed tracks with distinct raw albums but one shared matched album land
in two different singleton buckets keyed by their raw albums (and hence no
group is promoted), while the claim demands one shared bucket under
"zzz top". -/
theorem c3_counterexample :
    detect_series [c3t1, c3t2] 2 false = []
    ∧ (m5AlbumGroups [c3t1, c3t2] []).map
        (fun p => (p.1, p.2.map (fun e => e.track_id)))
      = [("foo bar".data, [1]), ("baz qux".data, [2])]
    ∧ claimEffectiveAlbum c3t1 = "Zzz Top".data
    ∧ claimEffectiveAlbum c3t2 = "Zzz Top".data
    ∧ 2 < ("Zzz Top".data).length
    ∧ normSimple "Zzz Top".data = "zzz top".data
    ∧ "foo bar".data ≠ "zzz top".data ∧ "baz qux".data ≠ "zzz top".data := by
  decide

/-- C4 counterexample: the aggregator drops empty cover urls before the
uniqueness check.  With one member carrying "http://x" and the other member
carrying no cover url, the group's `cover_url` is set to "http://x", while
the claim's every-member rule demands `none`. -/
theorem c4_counterexample :
    (get_tagged_series [c4t1, c4t2] 2).map
        (fun g => (g.cover_url, claimCoverRule g.tracks))
      = [(some "http://x".data, none)] := by decide

/-! ### C10: symmetry and reflexivity of the similarity score -/

theorem similarity_score_eq (a b : Str) :
    similarity_score a b = simCore (get_name_tokens a) (get_name_tokens b) := rfl

theorem simCore_comm (S T : Finset Str) : simCore S T = simCore T S := by
  unfold simCore
  by_cases h0 : S = ∅ ∨ T = ∅
  · have h0' : T = ∅ ∨ S = ∅ := h0.symm
    rw [if_pos h0, if_pos h0']
  · have h0' : ¬ (T = ∅ ∨ S = ∅) := fun hc => h0 hc.symm
    rw [if_neg h0, if_neg h0']
    rw [Finset.inter_comm T S, Finset.union_comm T S]
    rcases lt_trichotomy S.card T.card with hlt | heq | hgt
    · have h1 : S.card ≤ T.card := le_of_lt hlt
      have h2 : ¬ T.card ≤ S.card := not_le.mpr hlt
      simp only [if_pos h1, if_neg h2]
    · have h1 : S.card ≤ T.card := le_of_eq heq
      have h2 : T.card ≤ S.card := le_of_eq heq.symm
      simp only [if_pos h1, if_pos h2]
      by_cases hST : S = T
      · subst hST
        rfl
      · have hsub1 : ¬ (S ≠ ∅ ∧ S ⊆ T) := by
          rintro ⟨hne, hsub⟩
          exact hST (Finset.eq_of_subset_of_card_le hsub h2)
        have hsub2 : ¬ (T ≠ ∅ ∧ T ⊆ S) := by
          rintro ⟨hne, hsub⟩
          exact hST (Finset.eq_of_subset_of_card_le hsub h1).symm
        rw [if_neg hsub1, if_neg hsub2]
    · have h1 : ¬ S.card ≤ T.card := not_le.mpr hgt
      have h2 : T.card ≤ S.card := le_of_lt hgt
      simp only [if_neg h1, if_pos h2]

theorem simCore_self (T : Finset Str) (h : T ≠ ∅) : simCore T T = 1 := by
  have hcard : 0 < T.card := Finset.card_pos.mpr (Finset.nonempty_iff_ne_empty.mpr h)
  have hq : fracQ T.card T.card = 1 := by
    rw [fracQ_eq]
    exact div_self (by exact_mod_cast hcard.ne')
  unfold simCore
  have hg : ¬ (T = ∅ ∨ T = ∅) := by simpa using h
  rw [if_neg hg, if_pos (le_refl T.card)]
  rw [if_pos ⟨h, Finset.Subset.refl T⟩]
  rw [Finset.inter_self, Finset.union_self, if_pos hcard, hq, halfBoost_eq]
  norm_num [ratMax]

/-- C10: the token similarity score is symmetric on all keys, and equals 1
on any key whose significant-token set is non-empty. -/
theorem c10_similarity_symm_refl :
    (∀ a b : Str, similarity_score a b = similarity_score b a)
    ∧ ∀ k : Str, get_name_tokens k ≠ ∅ → similarity_score k k = 1 :=
  ⟨fun a b => by rw [similarity_score_eq, similarity_score_eq, simCore_comm],
   fun k hk => by rw [similarity_score_eq, simCore_self _ hk]⟩

/-- C10 witness: concrete instances of both conjuncts, with the non-empty
token-set hypothesis discharged by evaluation. -/
theorem c10_similarity_symm_refl_witness :
    get_name_tokens "late night sessions".data ≠ ∅
    ∧ similarity_score "late night sessions".data "late night sessions".data = 1
    ∧ similarity_score "gai barone patterns".data "patterns".data
        = similarity_score "patterns".data "gai barone patterns".data :=
  ⟨by decide, c10_similarity_symm_refl.2 _ (by decide),
    c10_similarity_symm_refl.1 _ _⟩

/-! ### Helper lemmas: tallies and majority votes -/

theorem bumpCount_ne_nil (acc : List (Str × Nat)) (x : Str) :
    bumpCount acc x ≠ [] := by
  cases acc with
  | nil => simp [bumpCount]
  | cons p rest =>
    cases p with
    | mk y n =>
      unfold bumpCount
      split <;> simp

theorem foldl_bumpCount_ne_nil (xs : List Str) (acc : List (Str × Nat))
    (h : acc ≠ []) : xs.foldl bumpCount acc ≠ [] := by
  induction xs generalizing acc with
  | nil => simpa using h
  | cons a rest ih => exact ih (bumpCount acc a) (bumpCount_ne_nil acc a)

theorem tally_ne_nil (a : Str) (rest : List Str) : tally (a :: rest) ≠ [] := by
  unfold tally
  rw [List.foldl_cons]
  exact foldl_bumpCount_ne_nil _ _ (bumpCount_ne_nil [] a)

theorem bumpCount_keys (acc : List (Str × Nat)) (x y : Str)
    (h : y ∈ (bumpCount acc x).map Prod.fst) :
    y ∈ acc.map Prod.fst ∨ y = x := by
  induction acc with
  | nil =>
    simp [bumpCount] at h
    exact Or.inr h
  | cons p rest ih =>
    cases p with
    | mk z n =>
      unfold bumpCount at h
      by_cases hz : z = x
      · rw [if_pos hz] at h
        simp at h
        rcases h with h | h
        · exact Or.inl (by simp [h])
        · exact Or.inl (by simp; exact Or.inr h)
      · rw [if_neg hz] at h
        simp at h
        rcases h with h | h
        · exact Or.inl (by simp [h])
        · rcases ih (by simpa using h) with h2 | h2
          · exact Or.inl (by simp at h2 ⊢; exact Or.inr h2)
          · exact Or.inr h2

theorem foldl_bumpCount_keys (xs : List Str) (acc : List (Str × Nat)) (y : Str)
    (h : y ∈ (xs.foldl bumpCount acc).map Prod.fst) :
    y ∈ acc.map Prod.fst ∨ y ∈ xs := by
  induction xs generalizing acc with
  | nil => exact Or.inl (by simpa using h)
  | cons a rest ih =>
    rcases ih (bumpCount acc a) (by simpa using h) with h2 | h2
    · rcases bumpCount_keys acc a y h2 with h3 | h3
      · exact Or.inl h3
      · exact Or.inr (by simp [h3])
    · exact Or.inr (by simp [h2])

theorem tally_keys (xs : List Str) (y : Str)
    (h : y ∈ (tally xs).map Prod.fst) : y ∈ xs := by
  rcases foldl_bumpCount_keys xs [] y h with h2 | h2
  · simp at h2
  · exact h2

theorem firstMaxKeyAux_mem (L : List (Str × Nat)) (bk : Str) (bn : Nat) :
    firstMaxKeyAux bk bn L = bk ∨ firstMaxKeyAux bk bn L ∈ L.map Prod.fst := by
  induction L generalizing bk bn with
  | nil => exact Or.inl rfl
  | cons p rest ih =>
    cases p with
    | mk k n =>
      unfold firstMaxKeyAux
      rw [List.map_cons]
      split
      · rcases ih k n with h | h
        · exact Or.inr (by rw [h]; exact List.mem_cons_self _ _)
        · exact Or.inr (List.mem_cons_of_mem _ h)
      · rcases ih bk bn with h | h
        · exact Or.inl h
        · exact Or.inr (List.mem_cons_of_mem _ h)

theorem firstMaxKey_mem (L : List (Str × Nat)) (h : L ≠ []) :
    firstMaxKey L ∈ L.map Prod.fst := by
  cases L with
  | nil => exact absurd rfl h
  | cons p rest =>
    cases p with
    | mk k n =>
      show firstMaxKeyAux k n rest ∈ _
      rw [List.map_cons]
      rcases firstMaxKeyAux_mem rest k n with h2 | h2
      · rw [h2]
        exact List.mem_cons_self _ _
      · exact List.mem_cons_of_mem _ h2

/-! ### Inversion lemmas for `synthesize` -/

theorem synthesize_orphan_flag (m : Nat) (k : Str) (l : List TrackInfo)
    (g : SeriesGroup) (hg : synthesize m (k, l) = some g) :
    g.is_orphan = strStarts orphanTag k := by
  cases l with
  | nil =>
    unfold synthesize at hg
    simp at hg
  | cons t0 rest =>
    unfold synthesize at hg
    simp only [List.head?] at hg
    rcases ite_eq_iff.mp hg with ⟨h1, hg2⟩ | ⟨h1, hg2⟩
    · rcases ite_eq_iff.mp hg2 with ⟨h2, hg3⟩ | ⟨h2, hg3⟩
      · injection hg3 with h3
        subst h3
        rfl
      · exact absurd hg3 (by simp)
    · exact absurd hg2 (by simp)

theorem synthesize_artist (m : Nat) (k : Str) (l : List TrackInfo)
    (g : SeriesGroup) (hg : synthesize m (k, l) = some g)
    (hh : ∀ t0, l.head? = some t0 → t0.matched_series = none) :
    g.suggested_artist = rawMostFrequentArtist l := by
  cases l with
  | nil =>
    unfold synthesize at hg
    simp at hg
  | cons t0 rest =>
    have hms : t0.matched_series = none := hh t0 rfl
    unfold synthesize at hg
    simp only [List.head?, hms, optTruthy] at hg
    rcases ite_eq_iff.mp hg with ⟨h1, hg2⟩ | ⟨h1, hg2⟩
    · rcases ite_eq_iff.mp hg2 with ⟨h2, hg3⟩ | ⟨h2, hg3⟩
      · injection hg3 with h3
        subst h3
        rfl
      · exact absurd hg3 (by simp)
    · exact absurd hg2 (by simp)

theorem synthesize_singleton_count (m : Nat) (k : Str) (t0 : TrackInfo)
    (g : SeriesGroup) (hg : synthesize m (k, [t0]) = some g) :
    g.track_count = 1 := by
  unfold synthesize at hg
  simp only [List.head?] at hg
  rcases ite_eq_iff.mp hg with ⟨h1, hg2⟩ | ⟨h1, hg2⟩
  · rcases ite_eq_iff.mp hg2 with ⟨h2, hg3⟩ | ⟨h2, hg3⟩
    · injection hg3 with h3
      subst h3
      simp [dedupeById, dedupeAux]
    · exact absurd hg3 (by simp)
  · exact absurd hg2 (by simp)

/-- C2 (amended): for a final-loop entry without a pre-set orphan
suggestion, the group's `suggested_artist` is the most frequent non-empty
raw artist (`current_artist`; `matched_artist` is never consulted, and is
not even part of the detection dicts) over the pre-deduplication member
entries, ties broken by first occurrence, defaulting to "Various" when
every member entry has an empty raw artist. -/
theorem c2_artist_amended (m : Nat) (k : Str) (l : List TrackInfo)
    (g : SeriesGroup) (hg : synthesize m (k, l) = some g)
    (hh : ∀ t0, l.head? = some t0 → t0.matched_series = none) :
    g.suggested_artist = rawMostFrequentArtist l
    ∧ ((∃ t ∈ l, t.current_artist = g.suggested_artist ∧ ¬ t.current_artist.isEmpty)
        ∨ (g.suggested_artist = "Various".data ∧ ∀ t ∈ l, t.current_artist.isEmpty)) := by
  have h1 := synthesize_artist m k l g hg hh
  refine ⟨h1, ?_⟩
  rw [h1]
  unfold rawMostFrequentArtist
  by_cases he : (tally ((l.filter (fun t => !t.current_artist.isEmpty)).map
      (fun t => t.current_artist))).isEmpty
  · right
    rw [if_pos he]
    refine ⟨rfl, ?_⟩
    have hnil : (l.filter (fun t => !t.current_artist.isEmpty)).map
        (fun t => t.current_artist) = [] := by
      cases hL : (l.filter (fun t => !t.current_artist.isEmpty)).map
          (fun t => t.current_artist) with
      | nil => rfl
      | cons a rest =>
        rw [hL] at he
        exact absurd (List.isEmpty_iff.mp he) (tally_ne_nil a rest)
    have hfil : l.filter (fun t => !t.current_artist.isEmpty) = [] :=
      List.map_eq_nil_iff.mp hnil
    intro t ht
    by_contra hne
    have : t ∈ l.filter (fun t => !t.current_artist.isEmpty) :=
      List.mem_filter.mpr ⟨ht, by simpa using hne⟩
    rw [hfil] at this
    exact absurd this (List.not_mem_nil t)
  · left
    rw [if_neg he]
    have hmem : firstMaxKey (tally ((l.filter (fun t => !t.current_artist.isEmpty)).map
        (fun t => t.current_artist)))
        ∈ (l.filter (fun t => !t.current_artist.isEmpty)).map
          (fun t => t.current_artist) := by
      apply tally_keys
      apply firstMaxKey_mem
      exact fun hc => he (by simp [hc])
    rcases List.mem_map.mp hmem with ⟨t, htf, hta⟩
    rcases List.mem_filter.mp htf with ⟨htl, htp⟩
    exact ⟨t, htl, hta, by simpa using htp⟩

/-- C2 witness: a concrete final-loop entry on which the amended artist rule
is exercised; the hypotheses are discharged by evaluation. -/
theorem c2_artist_amended_witness :
    synthesize 2 ("show one".data, (m1Groups [c2t1, c2t2]).headD ([], []) |>.2)
        = some ((detect_series [c2t1, c2t2] 2 false).headD dummyGroup)
    ∧ ((detect_series [c2t1, c2t2] 2 false).headD dummyGroup).suggested_artist
        = rawMostFrequentArtist ((m1Groups [c2t1, c2t2]).headD ([], []) |>.2) :=
  ⟨by decide,
    (c2_artist_amended 2 "show one".data _ _ (by decide) (by decide)).1⟩

/-! ### C4: the cover-url rule of the tagged aggregator -/

theorem insSorted_perm {α : Type} (le : α → α → Bool) (x : α) (l : List α) :
    (insSorted le x l).Perm (x :: l) := by
  induction l with
  | nil => exact List.Perm.refl _
  | cons y ys ih =>
    unfold insSorted
    split
    · exact ((ih).cons y).trans (List.Perm.swap x y ys)
    · exact List.Perm.refl _

theorem stableSortBy_perm {α : Type} (le : α → α → Bool) (xs : List α) :
    (stableSortBy le xs).Perm xs := by
  suffices h : ∀ (xs acc : List α),
      (xs.foldl (fun acc x => insSorted le x acc) acc).Perm (acc ++ xs) by
    simpa using h xs []
  intro xs
  induction xs with
  | nil => simp
  | cons x rest ih =>
    intro acc
    rw [List.foldl_cons]
    refine (ih (insSorted le x acc)).trans ?_
    refine (List.Perm.append_right rest (insSorted_perm le x acc)).trans ?_
    simpa using (List.perm_middle).symm

theorem buildTagged_inv (m : Nat) (key : Str × Str × Str)
    (l : List TrackInfo) (g : TaggedGroup)
    (hg : buildTagged m (key, l) = some g) :
    g.tracks = stableSortBy trackLe l
    ∧ g.cover_url = coverRule l := by
  unfold buildTagged at hg
  rcases ite_eq_iff.mp hg with ⟨h1, hg2⟩ | ⟨h1, hg2⟩
  · injection hg2 with h2
    subst h2
    exact ⟨rfl, rfl⟩
  · exact absurd hg2 (by simp)

theorem coverRule_perm (l l2 : List TrackInfo) (hp : l.Perm l2) :
    coverRule l = coverRule l2 := by
  unfold coverRule
  dsimp only
  have hperm : ((l.filter (fun t => !t.matched_cover_url.isEmpty)).map
      (fun t => t.matched_cover_url)).Perm
      ((l2.filter (fun t => !t.matched_cover_url.isEmpty)).map
        (fun t => t.matched_cover_url)) :=
    (hp.filter _).map _
  by_cases hne : ((l.filter (fun t => !t.matched_cover_url.isEmpty)).map
      (fun t => t.matched_cover_url)).isEmpty
  · have hnil : (l.filter (fun t => !t.matched_cover_url.isEmpty)).map
        (fun t => t.matched_cover_url) = [] := List.isEmpty_iff.mp hne
    have hnil2 : (l2.filter (fun t => !t.matched_cover_url.isEmpty)).map
        (fun t => t.matched_cover_url) = [] := by
      rw [hnil] at hperm
      exact hperm.symm.eq_nil
    rw [hnil, hnil2]
  · have hne2 : ¬ ((l2.filter (fun t => !t.matched_cover_url.isEmpty)).map
        (fun t => t.matched_cover_url)).isEmpty = true := by
      intro hc
      rw [List.isEmpty_iff.mp hc] at hperm
      exact hne (by simp [hperm.eq_nil])
    have hfs : ((l.filter (fun t => !t.matched_cover_url.isEmpty)).map
        (fun t => t.matched_cover_url)).toFinset
        = ((l2.filter (fun t => !t.matched_cover_url.isEmpty)).map
          (fun t => t.matched_cover_url)).toFinset :=
      List.toFinset_eq_of_perm _ _ hperm
    rw [hfs]
    by_cases hcard : ((l2.filter (fun t => !t.matched_cover_url.isEmpty)).map
        (fun t => t.matched_cover_url)).toFinset.card = 1
    · rw [if_pos ⟨by simpa using hne, hcard⟩, if_pos ⟨by simpa using hne2, hcard⟩]
      rcases Finset.card_eq_one.mp hcard with ⟨a, ha⟩
      have hval : ∀ x ∈ (l.filter (fun t => !t.matched_cover_url.isEmpty)).map
          (fun t => t.matched_cover_url), x = a := by
        intro x hx
        have : x ∈ ((l2.filter (fun t => !t.matched_cover_url.isEmpty)).map
            (fun t => t.matched_cover_url)).toFinset := by
          rw [← hfs]
          exact List.mem_toFinset.mpr hx
        rw [ha] at this
        exact Finset.mem_singleton.mp this
      have hval2 : ∀ x ∈ (l2.filter (fun t => !t.matched_cover_url.isEmpty)).map
          (fun t => t.matched_cover_url), x = a := by
        intro x hx
        have : x ∈ ((l2.filter (fun t => !t.matched_cover_url.isEmpty)).map
            (fun t => t.matched_cover_url)).toFinset := List.mem_toFinset.mpr hx
        rw [ha] at this
        exact Finset.mem_singleton.mp this
      have hh1 : ((l.filter (fun t => !t.matched_cover_url.isEmpty)).map
          (fun t => t.matched_cover_url)).headD [] = a := by
        cases hL : (l.filter (fun t => !t.matched_cover_url.isEmpty)).map
            (fun t => t.matched_cover_url) with
        | nil => exact absurd (by simp [hL]) hne
        | cons b bs => exact hval b (by rw [hL]; exact List.mem_cons_self _ _)
      have hh2 : ((l2.filter (fun t => !t.matched_cover_url.isEmpty)).map
          (fun t => t.matched_cover_url)).headD [] = a := by
        cases hL : (l2.filter (fun t => !t.matched_cover_url.isEmpty)).map
            (fun t => t.matched_cover_url) with
        | nil => exact absurd (by simp [hL]) hne2
        | cons b bs => exact hval2 b (by rw [hL]; exact List.mem_cons_self _ _)
      rw [hh1, hh2]
    · rw [if_neg (fun hc => hcard hc.2), if_neg (fun hc => hcard hc.2)]

/-- C4 (amended): for every group returned by the tagged-series aggregator,
`cover_url` is the unique value among the members' non-empty
`matched_cover_url`s when at least one member has one and all non-empty
ones agree, and null otherwise; members with an empty cover url are ignored
by the uniqueness check. -/
theorem c4_cover_amended (allTracks : List Track) (m : Nat) (g : TaggedGroup)
    (hg : g ∈ get_tagged_series allTracks m) :
    g.cover_url = coverRule g.tracks := by
  unfold get_tagged_series at hg
  have hg2 := (stableSortBy_perm _ _).mem_iff.mp hg
  rcases List.mem_filterMap.mp hg2 with ⟨entry, hmem, hbuild⟩
  obtain ⟨htr, hcov⟩ := buildTagged_inv m entry.1 entry.2 g
    (by rw [← hbuild])
  rw [hcov, htr]
  exact coverRule_perm _ _ (stableSortBy_perm _ _).symm

/-- C4 witness: two tagged tracks sharing one cover url produce a group
whose `cover_url` follows the amended rule. -/
theorem c4_cover_amended_witness :
    ((get_tagged_series [c4w1, c4w2] 2).headD dummyTagged ∈
      get_tagged_series [c4w1, c4w2] 2)
    ∧ ((get_tagged_series [c4w1, c4w2] 2).headD dummyTagged).cover_url
        = coverRule ((get_tagged_series [c4w1, c4w2] 2).headD dummyTagged).tracks :=
  ⟨by decide, c4_cover_amended [c4w1, c4w2] 2 _ (by decide)⟩

/-! ### Membership lemmas for the grouping folds -/

theorem appendAt_self (gs : Groups) (k : Str) (t : TrackInfo) :
    ∃ p ∈ appendAt gs k t, p.1 = k ∧ t ∈ p.2 := by
  induction gs with
  | nil =>
    refine ⟨(k, [t]), ?_, rfl, by simp⟩
    simp [appendAt]
  | cons q rest ih =>
    obtain ⟨k', l⟩ := q
    unfold appendAt
    by_cases hk : k' = k
    · rw [if_pos hk]
      exact ⟨(k', l ++ [t]), List.mem_cons_self _ _, hk, by simp⟩
    · rw [if_neg hk]
      obtain ⟨p, hp, hpk, hpt⟩ := ih
      exact ⟨p, List.mem_cons_of_mem _ hp, hpk, hpt⟩

theorem appendAt_mono (gs : Groups) (k : Str) (t : TrackInfo) (key : Str)
    (P : TrackInfo → Prop)
    (h : ∃ p ∈ gs, p.1 = key ∧ ∃ e ∈ p.2, P e) :
    ∃ p ∈ appendAt gs k t, p.1 = key ∧ ∃ e ∈ p.2, P e := by
  induction gs with
  | nil =>
    obtain ⟨p, hp, _⟩ := h
    exact absurd hp (List.not_mem_nil p)
  | cons q rest ih =>
    obtain ⟨k', l⟩ := q
    unfold appendAt
    obtain ⟨p, hp, hpk, e, he, hpe⟩ := h
    by_cases hk : k' = k
    · rw [if_pos hk]
      rcases List.mem_cons.mp hp with rfl | hp2
      · exact ⟨(k', l ++ [t]), List.mem_cons_self _ _, hpk,
          e, List.mem_append_left _ he, hpe⟩
      · exact ⟨p, List.mem_cons_of_mem _ hp2, hpk, e, he, hpe⟩
    · rw [if_neg hk]
      rcases List.mem_cons.mp hp with rfl | hp2
      · exact ⟨(k', l), List.mem_cons_self _ _, hpk, e, he, hpe⟩
      · obtain ⟨p2, hp2m, hpk2, e2, he2, hpe2⟩ := ih ⟨p, hp2, hpk, e, he, hpe⟩
        exact ⟨p2, List.mem_cons_of_mem _ hp2m, hpk2, e2, he2, hpe2⟩

theorem appendAt_forall (gs : Groups) (k : Str) (t : TrackInfo)
    (P : Str → TrackInfo → Prop)
    (hacc : ∀ p ∈ gs, ∀ e ∈ p.2, P p.1 e) (ht : P k t) :
    ∀ p ∈ appendAt gs k t, ∀ e ∈ p.2, P p.1 e := by
  induction gs with
  | nil =>
    intro p hp e he
    simp [appendAt] at hp
    subst hp
    simp at he
    subst he
    exact ht
  | cons q rest ih =>
    obtain ⟨k', l⟩ := q
    unfold appendAt
    by_cases hk : k' = k
    · rw [if_pos hk]
      intro p hp e he
      rcases List.mem_cons.mp hp with rfl | hp2
      · rcases List.mem_append.mp he with h2 | h2
        · exact hacc (k', l) (List.mem_cons_self _ _) e h2
        · simp at h2
          subst h2
          rw [hk]
          exact ht
      · exact hacc p (List.mem_cons_of_mem _ hp2) e he
    · rw [if_neg hk]
      intro p hp e he
      rcases List.mem_cons.mp hp with rfl | hp2
      · exact hacc (k', l) (List.mem_cons_self _ _) e he
      · exact ih (fun p2 hp2m => hacc p2 (List.mem_cons_of_mem _ hp2m)) p hp2 e he

/-! ### C3: the album strategy M5 -/

theorem m5Insert_cases (claimed : List Nat) (ags : Groups) (t : Track) :
    (m5Insert claimed ags t = ags ∧ (claimed.contains t.id = true ∨ ¬ m5Cond t))
    ∨ (m5Insert claimed ags t
        = appendAt ags (normSimple (m5Album t)) (mkM5 t (m5Album t))
        ∧ claimed.contains t.id = false ∧ m5Cond t) := by
  unfold m5Insert
  by_cases h1 : claimed.contains t.id
  · rw [if_pos h1]
    exact Or.inl ⟨rfl, Or.inl h1⟩
  · rw [if_neg h1]
    by_cases h2 : ¬ (orElse t.album t.matched_album).isEmpty
        ∧ 2 < (orElse t.album t.matched_album).length
    · rw [if_pos h2]
      by_cases h3 : ¬ (normSimple (orElse t.album t.matched_album)).isEmpty
      · rw [if_pos h3]
        exact Or.inr ⟨rfl, Bool.eq_false_iff.mpr h1, h2.1, h2.2, h3⟩
      · rw [if_neg h3]
        exact Or.inl ⟨rfl, Or.inr (fun hc => h3 hc.2.2)⟩
    · rw [if_neg h2]
      exact Or.inl ⟨rfl, Or.inr (fun hc => h2 ⟨hc.1, hc.2.1⟩)⟩

theorem m5_foldl_mono (claimed : List Nat) (l : List Track) (acc : Groups)
    (key : Str) (P : TrackInfo → Prop)
    (h : ∃ p ∈ acc, p.1 = key ∧ ∃ e ∈ p.2, P e) :
    ∃ p ∈ l.foldl (m5Insert claimed) acc, p.1 = key ∧ ∃ e ∈ p.2, P e := by
  induction l generalizing acc with
  | nil => simpa using h
  | cons t rest ih =>
    rw [List.foldl_cons]
    apply ih
    rcases m5Insert_cases claimed acc t with ⟨heq, _⟩ | ⟨heq, _⟩
    · rw [heq]
      exact h
    · rw [heq]
      exact appendAt_mono _ _ _ _ _ h

theorem m5_mem (tracks : List Track) (claimed : List Nat) (t : Track)
    (ht : t ∈ tracks) (hcl : claimed.contains t.id = false) (hc : m5Cond t) :
    ∃ p ∈ m5AlbumGroups tracks claimed,
      p.1 = normSimple (m5Album t) ∧ ∃ e ∈ p.2, e.track_id = t.id := by
  obtain ⟨s1, s2, rfl⟩ := List.append_of_mem ht
  unfold m5AlbumGroups
  rw [List.foldl_append, List.foldl_cons]
  apply m5_foldl_mono
  rcases m5Insert_cases claimed (List.foldl (m5Insert claimed) [] s1) t with
    ⟨_, hor⟩ | ⟨heq, _⟩
  · rcases hor with h | h
    · rw [hcl] at h
      exact absurd h (by simp)
    · exact absurd hc h
  · rw [heq]
    obtain ⟨p, hp, hk, hmem⟩ := appendAt_self _ _ _
    exact ⟨p, hp, hk, mkM5 t (m5Album t), hmem, rfl⟩

theorem m5_foldl_forall (claimed : List Nat) (P : Str → TrackInfo → Prop)
    (l : List Track) (acc : Groups)
    (hacc : ∀ p ∈ acc, ∀ e ∈ p.2, P p.1 e)
    (hstep : ∀ tr ∈ l, claimed.contains tr.id = false → m5Cond tr →
      P (normSimple (m5Album tr)) (mkM5 tr (m5Album tr))) :
    ∀ p ∈ l.foldl (m5Insert claimed) acc, ∀ e ∈ p.2, P p.1 e := by
  induction l generalizing acc with
  | nil => simpa using hacc
  | cons t rest ih =>
    rw [List.foldl_cons]
    apply ih
    · rcases m5Insert_cases claimed acc t with ⟨heq, _⟩ | ⟨heq, hcl, hc⟩
      · rw [heq]
        exact hacc
      · rw [heq]
        exact appendAt_forall _ _ _ _ hacc (hstep t (List.mem_cons_self _ _) hcl hc)
    · exact fun tr htr => hstep tr (List.mem_cons_of_mem _ htr)

theorem m5_forall (tracks : List Track) (claimed : List Nat) :
    ∀ p ∈ m5AlbumGroups tracks claimed, ∀ e ∈ p.2,
      ∃ tr ∈ tracks, claimed.contains tr.id = false ∧ m5Cond tr
        ∧ e.track_id = tr.id ∧ p.1 = normSimple (m5Album tr) := by
  unfold m5AlbumGroups
  intro p hp e he
  refine m5_foldl_forall claimed
    (fun k e2 => ∃ tr ∈ tracks, claimed.contains tr.id = false ∧ m5Cond tr
      ∧ e2.track_id = tr.id ∧ k = normSimple (m5Album tr)) tracks [] ?_ ?_ p hp e he
  · intro p2 hp2
    exact absurd hp2 (List.not_mem_nil p2)
  · intro tr htr hcl hc
    exact ⟨tr, htr, hcl, hc, rfl, rfl⟩

/-- C3 (amended): a still-unclaimed track participates in the M5 album
bucketing exactly when `track.album or track.matched_album` (the raw album
preferred — the reverse of the spec's effective-value order) is non-empty,
longer than 2 characters, and has a non-empty normalisation, and it is then
bucketed under the normalisation of that value. -/
theorem c3_album_grouping_amended (tracks : List Track) (claimed : List Nat)
    (t : Track) (hnd : (tracks.map (fun tr => tr.id)).Nodup)
    (ht : t ∈ tracks) (hcl : claimed.contains t.id = false) :
    (m5Cond t →
      ∃ p ∈ m5AlbumGroups tracks claimed,
        p.1 = normSimple (m5Album t) ∧ ∃ e ∈ p.2, e.track_id = t.id)
    ∧ ∀ p ∈ m5AlbumGroups tracks claimed, ∀ e ∈ p.2, e.track_id = t.id →
        p.1 = normSimple (m5Album t) ∧ m5Cond t := by
  constructor
  · exact fun hc => m5_mem tracks claimed t ht hcl hc
  · intro p hp e he hid
    obtain ⟨tr, htr, hclr, hcr, hidr, hkr⟩ := m5_forall tracks claimed p hp e he
    have heq : tr = t := by
      apply List.inj_on_of_nodup_map hnd htr ht
      show tr.id = t.id
      rw [← hidr, hid]
    subst heq
    exact ⟨hkr, hcr⟩

/-- C3 witness: the amended participation rule exercised on the concrete
counterexample tracks (hypotheses discharged by evaluation). -/
theorem c3_album_grouping_amended_witness :
    (c3t1 ∈ ([c3t1, c3t2] : List Track)
      ∧ ([] : List Nat).contains c3t1.id = false ∧ m5Cond c3t1)
    ∧ ∃ p ∈ m5AlbumGroups [c3t1, c3t2] [],
        p.1 = normSimple (m5Album c3t1) ∧ ∃ e ∈ p.2, e.track_id = c3t1.id :=
  ⟨⟨by decide, by decide, by decide⟩,
    (c3_album_grouping_amended [c3t1, c3t2] [] c3t1 (by decide) (by decide)
      (by decide)).1 (by decide)⟩

/-! ### C8: the empty-filename policy -/

theorem extract_series_name_nil : extract_series_name [] = ([], [], none) := by
  decide

theorem m1Insert_cases (gs : Groups) (t : Track) :
    (m1Insert gs t = gs
      ∧ ¬ (¬ (extract_series_name t.filename).2.1.isEmpty
            ∧ 3 < (extract_series_name t.filename).2.1.length))
    ∨ (m1Insert gs t
        = appendAt gs (extract_series_name t.filename).2.1
            (mkM1 t (extract_series_name t.filename).1
              (extract_series_name t.filename).2.2)
        ∧ ¬ (extract_series_name t.filename).2.1.isEmpty
        ∧ 3 < (extract_series_name t.filename).2.1.length) := by
  unfold m1Insert
  dsimp only
  by_cases h : ¬ (extract_series_name t.filename).2.1.isEmpty
      ∧ 3 < (extract_series_name t.filename).2.1.length
  · rw [if_pos h]
    exact Or.inr ⟨rfl, h⟩
  · rw [if_neg h]
    exact Or.inl ⟨rfl, h⟩

theorem m1_foldl_forall (P : Str → TrackInfo → Prop)
    (l : List Track) (acc : Groups)
    (hacc : ∀ p ∈ acc, ∀ e ∈ p.2, P p.1 e)
    (hstep : ∀ tr ∈ l,
      ¬ (extract_series_name tr.filename).2.1.isEmpty →
      3 < (extract_series_name tr.filename).2.1.length →
      P (extract_series_name tr.filename).2.1
        (mkM1 tr (extract_series_name tr.filename).1
          (extract_series_name tr.filename).2.2)) :
    ∀ p ∈ l.foldl m1Insert acc, ∀ e ∈ p.2, P p.1 e := by
  induction l generalizing acc with
  | nil => simpa using hacc
  | cons t rest ih =>
    rw [List.foldl_cons]
    apply ih
    · rcases m1Insert_cases acc t with ⟨heq, _⟩ | ⟨heq, hg1, hg2⟩
      · rw [heq]
        exact hacc
      · rw [heq]
        exact appendAt_forall _ _ _ _ hacc (hstep t (List.mem_cons_self _ _) hg1 hg2)
    · exact fun tr htr => hstep tr (List.mem_cons_of_mem _ htr)

theorem m1_forall (tracks : List Track) :
    ∀ p ∈ m1Groups tracks, ∀ e ∈ p.2,
      ∃ tr ∈ tracks, e.track_id = tr.id
        ∧ ¬ (extract_series_name tr.filename).2.1.isEmpty
        ∧ 3 < (extract_series_name tr.filename).2.1.length
        ∧ p.1 = (extract_series_name tr.filename).2.1 := by
  unfold m1Groups
  intro p hp e he
  refine m1_foldl_forall
    (fun k e2 => ∃ tr ∈ tracks, e2.track_id = tr.id
      ∧ ¬ (extract_series_name tr.filename).2.1.isEmpty
      ∧ 3 < (extract_series_name tr.filename).2.1.length
      ∧ k = (extract_series_name tr.filename).2.1) tracks [] ?_ ?_ p hp e he
  · exact fun p2 hp2 => absurd hp2 (List.not_mem_nil p2)
  · exact fun tr htr hg1 hg2 => ⟨tr, htr, rfl, hg1, hg2, rfl⟩

theorem dir_foldl_mono (l : List Track) (acc : Groups) (key : Str)
    (P : TrackInfo → Prop) (h : ∃ p ∈ acc, p.1 = key ∧ ∃ e ∈ p.2, P e) :
    ∃ p ∈ l.foldl dirInsert acc, p.1 = key ∧ ∃ e ∈ p.2, P e := by
  induction l generalizing acc with
  | nil => simpa using h
  | cons t rest ih =>
    rw [List.foldl_cons]
    exact ih _ (appendAt_mono _ _ _ _ _ h)

theorem dirGroups_mem (tracks : List Track) (t : Track) (ht : t ∈ tracks) :
    ∃ p ∈ dirGroups tracks, p.1 = t.directory ∧ ∃ e ∈ p.2, e.track_id = t.id := by
  obtain ⟨s1, s2, rfl⟩ := List.append_of_mem ht
  unfold dirGroups
  rw [List.foldl_append, List.foldl_cons]
  apply dir_foldl_mono
  unfold dirInsert
  obtain ⟨p, hp, hk, hmem⟩ := appendAt_self _ _ _
  exact ⟨p, hp, hk, mkM2 t, hmem, rfl⟩

theorem similarity_score_nil_left (b : Str) : similarity_score [] b = 0 := by
  rw [similarity_score_eq]
  have ht : get_name_tokens ([] : Str) = ∅ := by decide
  rw [ht]
  unfold simCore
  rw [if_pos (Or.inl rfl)]

theorem m4Step_empty_filename (tsm : List (Str × TaggedInfo))
    (acc : Groups × List Nat) (t : Track) (hf : t.filename = []) :
    m4Step tsm acc t = acc := by
  unfold m4Step
  by_cases h1 : acc.2.contains t.id
  · rw [if_pos h1]
  · rw [if_neg h1]
    have hkey : (extract_series_name t.filename).2.1 = [] := by
      rw [hf, extract_series_name_nil]
    have hfil : tsm.filter (fun p =>
        decide (half < similarity_score (extract_series_name t.filename).2.1 p.1))
        = [] := by
      apply List.filter_eq_nil_iff.mpr
      intro p _
      rw [hkey, similarity_score_nil_left]
      simp [half]
    dsimp only
    rw [hfil]
    simp

/-- C8: a track with an empty filename (the `filename` column is
non-nullable, so a missing filename is the empty string) is excluded from
the key-based strategies — it enters no M1 bucket, and the orphan matcher
M4 leaves the state untouched on it — yet it still lands in its directory's
M2 bucket and, when unclaimed with a qualifying album, in its album's M5
bucket; the engine itself is a total function of the snapshot. -/
theorem c8_empty_filename (tracks : List Track) (t : Track)
    (hnd : (tracks.map (fun tr => tr.id)).Nodup)
    (ht : t ∈ tracks) (hf : t.filename = []) :
    (∀ p ∈ m1Groups tracks, ∀ e ∈ p.2, e.track_id ≠ t.id)
    ∧ (∀ tsm acc, m4Step tsm acc t = acc)
    ∧ (∃ p ∈ dirGroups tracks, p.1 = t.directory ∧ ∃ e ∈ p.2, e.track_id = t.id)
    ∧ (∀ claimed, claimed.contains t.id = false → m5Cond t →
        ∃ p ∈ m5AlbumGroups tracks claimed,
          p.1 = normSimple (m5Album t) ∧ ∃ e ∈ p.2, e.track_id = t.id) := by
  refine ⟨?_, fun tsm acc => m4Step_empty_filename tsm acc t hf,
    dirGroups_mem tracks t ht,
    fun claimed hcl hc => m5_mem tracks claimed t ht hcl hc⟩
  intro p hp e he hid
  obtain ⟨tr, htr, hidr, hg1, _, _⟩ := m1_forall tracks p hp e he
  have heq : tr = t := by
    apply List.inj_on_of_nodup_map hnd htr ht
    show tr.id = t.id
    rw [← hidr, hid]
  subst heq
  rw [hf, extract_series_name_nil] at hg1
  exact hg1 (by decide)

/-- C8 witness: the policy exercised on a concrete snapshot with one
empty-filename track. -/
theorem c8_empty_filename_witness :
    (c8t1.filename = ([] : Str) ∧ c8t1 ∈ ([c8t1, c8t2] : List Track))
    ∧ m4Step [] ([], []) c8t1 = ([], [])
    ∧ (∃ p ∈ dirGroups [c8t1, c8t2],
        p.1 = c8t1.directory ∧ ∃ e ∈ p.2, e.track_id = c8t1.id)
    ∧ (∃ p ∈ m5AlbumGroups [c8t1, c8t2] [],
        p.1 = normSimple (m5Album c8t1) ∧ ∃ e ∈ p.2, e.track_id = c8t1.id) :=
  ⟨⟨by decide, by decide⟩,
    (c8_empty_filename [c8t1, c8t2] c8t1 (by decide) (by decide)
      (by decide)).2.1 [] ([], []),
    (c8_empty_filename [c8t1, c8t2] c8t1 (by decide) (by decide)
      (by decide)).2.2.1,
    (c8_empty_filename [c8t1, c8t2] c8t1 (by decide) (by decide)
      (by decide)).2.2.2 [] (by decide) (by decide)⟩

/-! ### C9: orphan groups are singletons -/

theorem mem_collapseWsAux (b : Bool) (s : Str) (c : Char)
    (h : c ∈ collapseWsAux b s) : c = ' ' ∨ c ∈ s := by
  induction s generalizing b with
  | nil => simp [collapseWsAux] at h
  | cons x rest ih =>
    unfold collapseWsAux at h
    by_cases hx : isWs x
    · rw [if_pos hx] at h
      by_cases hb : b
      · rw [if_pos hb] at h
        rcases ih true h with h2 | h2
        · exact Or.inl h2
        · exact Or.inr (List.mem_cons_of_mem _ h2)
      · rw [if_neg hb] at h
        rcases List.mem_cons.mp h with h2 | h2
        · exact Or.inl h2
        · rcases ih true h2 with h3 | h3
          · exact Or.inl h3
          · exact Or.inr (List.mem_cons_of_mem _ h3)
    · rw [if_neg hx] at h
      rcases List.mem_cons.mp h with h2 | h2
      · exact Or.inr (h2 ▸ List.mem_cons_self _ _)
      · rcases ih false h2 with h3 | h3
        · exact Or.inl h3
        · exact Or.inr (List.mem_cons_of_mem _ h3)

theorem mem_stripStr (s : Str) (c : Char) (h : c ∈ stripStr s) : c ∈ s := by
  unfold stripStr at h
  rw [List.mem_reverse] at h
  have h2 := (List.dropWhile_sublist _).mem h
  rw [List.mem_reverse] at h2
  exact (List.dropWhile_sublist _).mem h2

theorem normKey_chars (s : Str) (c : Char) (h : c ∈ normKey s) :
    isWordC c = true ∨ isWs c = true := by
  unfold normKey at h
  have h2 := mem_stripStr _ _ h
  rcases mem_collapseWsAux false _ c h2 with h3 | h3
  · exact Or.inr (by rw [h3]; decide)
  · have h4 := List.of_mem_filter h3
    rcases Bool.or_eq_true_iff.mp h4 with h5 | h5
    · exact Or.inl h5
    · exact Or.inr h5

theorem strStarts_colon_mem (ated : Str) (h : strStarts orphanTag ated = true) :
    ':' ∈ ated := by
  unfold strStarts at h
  obtain ⟨rest, hrest⟩ := List.isPrefixOf_iff_prefix.mp h
  rw [← hrest]
  refine List.mem_append_left _ ?_
  decide

theorem normKey_not_orphan (s : Str) :
    strStarts orphanTag (normKey s) = false := by
  by_contra h
  have h2 : strStarts orphanTag (normKey s) = true := by
    simpa using h
  rcases normKey_chars s ':' (strStarts_colon_mem _ h2) with h4 | h4
  · exact absurd h4 (by decide)
  · exact absurd h4 (by decide)

theorem strStarts_orphan_dir (x : Str) :
    strStarts orphanTag (dirTag ++ x) = false := rfl

theorem strStarts_orphan_album (x : Str) :
    strStarts orphanTag (albumTag ++ x) = false := rfl

theorem extract_key_normKey (f : Str) :
    (extract_series_name f).2.1 = normKey (extract_series_name f).1 := by
  unfold extract_series_name
  dsimp only

/-- No entry of the pre-M4 `series_groups` carries an `orphan:` key. -/
def NoOrph (gs : Groups) : Prop :=
  ∀ p ∈ gs, strStarts orphanTag p.1 = false

/-- Every `orphan:`-keyed entry is a singleton candidate. -/
def QOrph (gs : Groups) : Prop :=
  ∀ p ∈ gs, strStarts orphanTag p.1 = true → p.2.length = 1

theorem QOrph_of_noOrph (gs : Groups) (h : NoOrph gs) : QOrph gs := by
  intro p hp ho
  rw [h p hp] at ho
  exact absurd ho (by simp)

theorem appendAt_keys {κ : Type} [DecidableEq κ] (gs : List (κ × List TrackInfo))
    (k : κ) (t : TrackInfo) (p : κ × List TrackInfo)
    (hp : p ∈ appendAt gs k t) : p.1 = k ∨ p.1 ∈ gs.map Prod.fst := by
  induction gs with
  | nil =>
    simp [appendAt] at hp
    subst hp
    exact Or.inl rfl
  | cons q rest ih =>
    obtain ⟨k', l⟩ := q
    unfold appendAt at hp
    by_cases hk : k' = k
    · rw [if_pos hk] at hp
      rcases List.mem_cons.mp hp with rfl | hp2
      · exact Or.inl hk
      · refine Or.inr ?_
        rw [List.map_cons]
        exact List.mem_cons_of_mem _ (List.mem_map_of_mem _ hp2)
    · rw [if_neg hk] at hp
      rcases List.mem_cons.mp hp with rfl | hp2
      · refine Or.inr ?_
        rw [List.map_cons]
        exact List.mem_cons_self _ _
      · rcases ih hp2 with h | h
        · exact Or.inl h
        · refine Or.inr ?_
          rw [List.map_cons]
          exact List.mem_cons_of_mem _ h

theorem m1_foldl_keys (l : List Track) (acc : Groups) (p : Str × List TrackInfo)
    (hp : p ∈ l.foldl m1Insert acc) :
    p.1 ∈ acc.map Prod.fst
      ∨ ∃ tr ∈ l, p.1 = (extract_series_name tr.filename).2.1 := by
  induction l generalizing acc with
  | nil => exact Or.inl (List.mem_map_of_mem _ (by simpa using hp))
  | cons t rest ih =>
    rw [List.foldl_cons] at hp
    rcases ih (m1Insert acc t) hp with h | ⟨tr, htr, hk⟩
    · rcases m1Insert_cases acc t with ⟨heq, _⟩ | ⟨heq, _⟩
      · rw [heq] at h
        exact Or.inl h
      · rw [heq] at h
        rcases List.mem_map.mp h with ⟨q, hq, hqk⟩
        rcases appendAt_keys acc _ _ q hq with h2 | h2
        · exact Or.inr ⟨t, List.mem_cons_self _ _, by rw [← hqk, h2]⟩
        · exact Or.inl (by rw [← hqk]; exact h2)
    · exact Or.inr ⟨tr, List.mem_cons_of_mem _ htr, hk⟩

theorem m1Groups_noOrph (tracks : List Track) : NoOrph (m1Groups tracks) := by
  intro p hp
  rcases m1_foldl_keys tracks [] p hp with h | ⟨tr, _, hk⟩
  · simp at h
  · rw [hk, extract_key_normKey]
    exact normKey_not_orphan _

theorem assignAt_mem {κ : Type} [DecidableEq κ] (gs : List (κ × List TrackInfo))
    (k : κ) (l : List TrackInfo) (p : κ × List TrackInfo)
    (hp : p ∈ assignAt gs k l) : p = (k, l) ∨ p ∈ gs := by
  induction gs with
  | nil =>
    simp [assignAt] at hp
    exact Or.inl hp
  | cons q rest ih =>
    obtain ⟨k', l'⟩ := q
    unfold assignAt at hp
    by_cases hk : k' = k
    · rw [if_pos hk] at hp
      rcases List.mem_cons.mp hp with rfl | hp2
      · exact Or.inl (by rw [hk])
      · exact Or.inr (List.mem_cons_of_mem _ hp2)
    · rw [if_neg hk] at hp
      rcases List.mem_cons.mp hp with rfl | hp2
      · exact Or.inr (List.mem_cons_self _ _)
      · rcases ih hp2 with h | h
        · exact Or.inl h
        · exact Or.inr (List.mem_cons_of_mem _ h)

theorem m2Step_noOrph (m : Nat) (claimed : List Nat) (gs : Groups)
    (entry : Str × List TrackInfo) (h : NoOrph gs) :
    NoOrph (m2Step m claimed gs entry) := by
  intro p hp
  unfold m2Step at hp
  by_cases h1 : m ≤ entry.2.length
  · rw [if_pos h1] at hp
    by_cases h2 : m ≤ (entry.2.filter
        (fun t => !claimed.contains t.track_id)).length
    · rw [if_pos h2] at hp
      by_cases h3 : ¬ (normSimple (stripLeadNumDir (lastSegment entry.1))).isEmpty
          ∧ 3 < (normSimple (stripLeadNumDir (lastSegment entry.1))).length
      · rw [if_pos h3] at hp
        rcases assignAt_mem _ _ _ p hp with rfl | hp2
        · exact strStarts_orphan_dir _
        · exact h p hp2
      · rw [if_neg h3] at hp
        exact h p hp
    · rw [if_neg h2] at hp
      exact h p hp
  · rw [if_neg h1] at hp
    exact h p hp

theorem m2_foldl_noOrph (m : Nat) (claimed : List Nat)
    (dgs : List (Str × List TrackInfo)) (gs : Groups) (h : NoOrph gs) :
    NoOrph (dgs.foldl (m2Step m claimed) gs) := by
  induction dgs generalizing gs with
  | nil => simpa using h
  | cons d rest ih =>
    rw [List.foldl_cons]
    exact ih _ (m2Step_noOrph m claimed gs d h)

theorem m3MergeAux_keys (fuel : Nat) (gs : Groups) (p : Str × List TrackInfo)
    (hp : p ∈ m3MergeAux fuel gs) : p.1 ∈ gs.map Prod.fst := by
  induction fuel generalizing gs with
  | zero =>
    cases gs with
    | nil => simp [m3MergeAux] at hp
    | cons q rest => exact List.mem_map_of_mem _ (by simpa [m3MergeAux] using hp)
  | succ fuel ih =>
    cases gs with
    | nil => simp [m3MergeAux] at hp
    | cons q rest =>
      obtain ⟨k, l⟩ := q
      unfold m3MergeAux at hp
      rcases List.mem_cons.mp hp with rfl | hp2
      · rw [List.map_cons]
        exact List.mem_cons_self _ _
      · have h2 := ih _ hp2
        rcases List.mem_map.mp h2 with ⟨q2, hq2, hqk⟩
        have hq3 : q2 ∈ rest := List.mem_of_mem_filter hq2
        rw [List.map_cons, ← hqk]
        exact List.mem_cons_of_mem _ (List.mem_map_of_mem _ hq3)

theorem m3Merge_noOrph (gs : Groups) (h : NoOrph gs) : NoOrph (m3Merge gs) := by
  intro p hp
  have h2 := m3MergeAux_keys _ _ p hp
  rcases List.mem_map.mp h2 with ⟨q, hq, hqk⟩
  rw [← hqk]
  exact h q hq

theorem QOrph_assign_singleton (gs : Groups) (k : Str) (x : TrackInfo)
    (h : QOrph gs) : QOrph (assignAt gs k [x]) := by
  intro p hp ho
  rcases assignAt_mem _ _ _ p hp with rfl | hp2
  · rfl
  · exact h p hp2 ho

theorem m4Step_QOrph (tsm : List (Str × TaggedInfo)) (acc : Groups × List Nat)
    (t : Track) (h : QOrph acc.1) : QOrph (m4Step tsm acc t).1 := by
  unfold m4Step
  split
  · exact h
  · dsimp only
    split
    · exact h
    · split
      · exact h
      · exact QOrph_assign_singleton _ _ _ h

theorem m4_foldl_QOrph (tsm : List (Str × TaggedInfo)) (l : List Track)
    (acc : Groups × List Nat) (h : QOrph acc.1) :
    QOrph ((l.foldl (m4Step tsm) acc).1) := by
  induction l generalizing acc with
  | nil => simpa using h
  | cons t rest ih =>
    rw [List.foldl_cons]
    exact ih _ (m4Step_QOrph tsm acc t h)

theorem m5Promote_QOrph (m : Nat) (gs : Groups) (p : Str × List TrackInfo)
    (h : QOrph gs) : QOrph (m5Promote m gs p) := by
  intro q hq ho
  unfold m5Promote at hq
  by_cases h1 : m ≤ p.2.length
  · rw [if_pos h1] at hq
    rcases assignAt_mem _ _ _ q hq with rfl | hq2
    · rw [strStarts_orphan_album] at ho
      exact absurd ho (by simp)
    · exact h q hq2 ho
  · rw [if_neg h1] at hq
    exact h q hq ho

theorem m5_foldl_QOrph (m : Nat) (ags : List (Str × List TrackInfo))
    (gs : Groups) (h : QOrph gs) : QOrph (ags.foldl (m5Promote m) gs) := by
  induction ags generalizing gs with
  | nil => simpa using h
  | cons p rest ih =>
    rw [List.foldl_cons]
    exact ih _ (m5Promote_QOrph m gs p h)

theorem detectGroups_QOrph (allTracks : List Track) (m : Nat) (i : Bool) :
    QOrph (detectGroups allTracks m i) := by
  unfold detectGroups
  dsimp only
  apply m5_foldl_QOrph
  cases i with
  | false =>
    simp only [Bool.false_eq_true, if_false]
    apply m4_foldl_QOrph
    exact QOrph_of_noOrph _ (m3Merge_noOrph _ (m2_foldl_noOrph _ _ _ _
      (m1Groups_noOrph _)))
  | true =>
    simp only [if_true]
    exact QOrph_of_noOrph _ (m3Merge_noOrph _ (m2_foldl_noOrph _ _ _ _
      (m1Groups_noOrph _)))

/-- C9: every final group flagged `is_orphan` has `track_count` exactly 1:
orphan candidates are created as singleton lists under keys `orphan:<id>`
that no other strategy can produce (normalised keys contain no colon, and
directory/album keys start with other prefixes). -/
theorem c9_orphan_track_count (allTracks : List Track) (m : Nat) (i : Bool)
    (g : SeriesGroup) (hg : g ∈ detect_series allTracks m i)
    (ho : g.is_orphan = true) : g.track_count = 1 := by
  unfold detect_series at hg
  have hg2 := (stableSortBy_perm _ _).mem_iff.mp hg
  rcases List.mem_filterMap.mp hg2 with ⟨entry, hmem, hsynth⟩
  obtain ⟨k, l⟩ := entry
  have hflag := synthesize_orphan_flag m k l g hsynth
  rw [ho] at hflag
  have hQ := detectGroups_QOrph allTracks m i (k, l) hmem hflag.symm
  cases l with
  | nil => simp at hQ
  | cons t0 rest =>
    cases rest with
    | nil => exact synthesize_singleton_count m k t0 g hsynth
    | cons t1 rest2 => simp at hQ

/-- C9 witness: a concrete snapshot producing an orphan group with
`track_count = 1`. -/
theorem c9_orphan_track_count_witness :
    ((detect_series [c9tt, c9tu] 2 false).headD dummyGroup
        ∈ detect_series [c9tt, c9tu] 2 false)
    ∧ ((detect_series [c9tt, c9tu] 2 false).headD dummyGroup).is_orphan = true
    ∧ ((detect_series [c9tt, c9tu] 2 false).headD dummyGroup).track_count = 1 :=
  ⟨by decide, by decide,
    c9_orphan_track_count [c9tt, c9tu] 2 false _ (by decide) (by decide)⟩

end SetList
